import Mathlib

/-!
Verification of the movieswatchlist.net backend (Python) against its
natural-language specification.  Strings are modelled as `List Char`
(ASCII-faithful; Python's `str.lower`, `str.strip` and the regexes used by
the code only act on ASCII in the relevant places).  Machine-external parts
(pandas CSV decoding, the TMDB HTTP client) are modelled as already-parsed
inputs or as oracle parameters producing only non-key fields.
-/

namespace Watchlist

/-- Python's `\s` / `str.strip` whitespace on ASCII:
space, tab, newline, carriage return, form feed, vertical tab. -/
def pyIsSpace (c : Char) : Bool :=
  c == ' ' || c == '\t' || c == '\n' || c == '\x0d' || c == '\x0c' || c == '\x0b'

/-- ASCII lower-casing, as `str.lower` acts on ASCII characters. -/
def pyLower (c : Char) : Char :=
  if 'A' ≤ c && c ≤ 'Z' then Char.ofNat (c.toNat + 32) else c

/-- `str.lstrip` on ASCII. -/
def lstrip (l : List Char) : List Char := l.dropWhile pyIsSpace

/-- `str.rstrip` on ASCII, written structurally so it evaluates in the kernel. -/
def rstrip : List Char → List Char
  | [] => []
  | c :: rest =>
    match rstrip rest with
    | [] => if pyIsSpace c then [] else [c]
    | r => c :: r

/-- `str.strip` on ASCII. -/
def pyStrip (l : List Char) : List Char := rstrip (lstrip l)

/-- One maximal run of whitespace becomes a single `' '`:
`re.sub(r'\s+', ' ', s)`.  The flag records whether we are inside a run. -/
def collapseWsAux : Bool → List Char → List Char
  | _, [] => []
  | inRun, c :: rest =>
    if pyIsSpace c then
      if inRun then collapseWsAux true rest else ' ' :: collapseWsAux true rest
    else c :: collapseWsAux false rest

/-- `re.sub(r'\s+', ' ', s)`. -/
def collapseWs (l : List Char) : List Char := collapseWsAux false l

/-- Characters kept by `re.sub(r'[^a-z0-9\s]', '', s)`. -/
def keepChar (c : Char) : Bool :=
  ('a' ≤ c && c ≤ 'z') || ('0' ≤ c && c ≤ '9') || pyIsSpace c

/-- One pass of `normalized.startswith(article)` followed by
`normalized[len(article):].strip()`. -/
def stripArticle (art : List Char) (l : List Char) : List Char :=
  if art.isPrefixOf l then pyStrip (l.drop art.length) else l

/-- `normalize_title` from `backend/list_processor.py`:
lower-case and strip, remove one leading `"the "`, `"a "`, `"an "` (in that
order), drop every character outside `[a-z0-9\s]`, collapse whitespace runs
to single spaces and strip. -/
def normalize_title (title : List Char) : List Char :=
  if title = [] then []
  else
    let n := pyStrip (title.map pyLower)
    let n := stripArticle ('t' :: 'h' :: 'e' :: ' ' :: []) n
    let n := stripArticle ('a' :: ' ' :: []) n
    let n := stripArticle ('a' :: 'n' :: ' ' :: []) n
    let n := n.filter keepChar
    pyStrip (collapseWs n)

/-- ASCII upper-casing, as `str.upper` acts on ASCII characters. -/
def pyUpper (c : Char) : Char :=
  if 'a' ≤ c && c ≤ 'z' then Char.ofNat (c.toNat - 32) else c

/-- `sep in l`: does `sep` occur as a contiguous subsequence of `l`? -/
def containsSeq (sep : List Char) : List Char → Bool
  | [] => sep.isEmpty
  | c :: rest => sep.isPrefixOf (c :: rest) || containsSeq sep rest

/-- Left-to-right non-overlapping scan computing the suffix of the third
argument after the last occurrence of `sep`, i.e. `l.split(sep)[-1]`.
`best` holds the candidate answer so far; the `Nat` is fuel (one unit per
character consumed, so `l.length` suffices for non-empty `sep`). -/
def afterSepAux (sep : List Char) : Nat → List Char → List Char → List Char
  | 0, best, _ => best
  | _ + 1, best, [] => best
  | fuel + 1, best, c :: rest =>
    if sep.isPrefixOf (c :: rest) then
      let suffix := (c :: rest).drop sep.length
      afterSepAux sep fuel suffix suffix
    else afterSepAux sep fuel best rest

/-- `l.split(sep)[-1]` for non-empty `sep`. -/
def afterLastSep (sep l : List Char) : List Char := afterSepAux sep l.length l l

/-- `normalize_uri` from `backend/list_processor.py`: strip, and when the URI
starts with `http`, keep only the part after the last `boxd.it/`
(or, failing that, `letterboxd.com/`). -/
def normalize_uri (uri : List Char) : List Char :=
  if uri = [] then []
  else
    let u := pyStrip uri
    if ("http".data).isPrefixOf u then
      if containsSeq ("boxd.it/".data) u then afterLastSep ("boxd.it/".data) u
      else if containsSeq ("letterboxd.com/".data) u then afterLastSep ("letterboxd.com/".data) u
      else u
    else u

/-- JSON values, for the `tmdb_data` column and its nested structure.
Numbers are modelled as integers (TMDB provider ids are integers). -/
inductive Json where
  | null
  | bool (b : Bool)
  | num (n : Int)
  | str (s : List Char)
  | arr (xs : List Json)
  | obj (fields : List (List Char × Json))
deriving BEq

/-- Python truthiness of a JSON value. -/
def pyTruthy : Json → Bool
  | .null => false
  | .bool b => b
  | .num n => n != 0
  | .str s => !s.isEmpty
  | .arr xs => !xs.isEmpty
  | .obj fs => !fs.isEmpty

/-- A row of the `movies` table.  Nullable columns are `Option`; the
dynamically added tracked-list boolean columns are the set `flags` of
column names whose value is 1. -/
structure Movie where
  id : Nat
  title : Option (List Char) := none
  year : Option Int := none
  letterboxd_uri : Option (List Char) := none
  director : Option (List Char) := none
  country : Option (List Char) := none
  runtime : Option Int := none
  genres : Option (List (List Char)) := none
  tmdb_id : Option Int := none
  tmdb_data : Option Json := none
  is_favorite : Option Bool := none
  seen_before : Option Bool := none
  notes : Option (List Char) := none
  flags : List (List Char) := []

/-- The columns `match_movie_by_uri` / `match_movie_by_title_year` read. -/
def mfields (m : Movie) : Nat × Option (List Char) × Option Int × Option (List Char) :=
  (m.id, m.title, m.year, m.letterboxd_uri)

/-- `match_movie_by_uri` from `backend/list_processor.py`: exact match first,
then stored URI equal to the normalized input, then a scan of the first 5000
movies with non-NULL URI comparing normalized URIs.  `first()` / the scan use
the table's row order, modelled by the list order. -/
def match_movie_by_uri (db : List Movie) (letterboxd_uri : List Char) : Option Movie :=
  if letterboxd_uri = [] then none
  else
    match db.find? (fun m => m.letterboxd_uri == some letterboxd_uri) with
    | some movie => some movie
    | none =>
      let normalizedInput := normalize_uri letterboxd_uri
      if normalizedInput = [] then none
      else
        match db.find? (fun m => m.letterboxd_uri == some normalizedInput) with
        | some movie => some movie
        | none =>
          ((db.filter (fun m => m.letterboxd_uri != none)).take 5000).find? (fun m =>
            match m.letterboxd_uri with
            | some su => normalize_uri su == normalizedInput
            | none => false)

/-- `match_movie_by_title_year` from `backend/list_processor.py`.
Python's `not year` makes year 0 falsy. -/
def match_movie_by_title_year (db : List Movie) (title : List Char) (year : Int) : Option Movie :=
  if title = [] || year == 0 then none
  else
    let normalizedTitle := normalize_title title
    let exactMatches := db.filter (fun m =>
      (m.title.map (List.map pyLower) == some (title.map pyLower)) && (m.year == some year))
    if exactMatches.length = 1 then exactMatches.head?
    else
      (db.filter (fun m => m.year == some year)).find? (fun m =>
        normalize_title (m.title.getD []) == normalizedTitle)

/-- A row of a tracked-list CSV as produced by `parse_tracked_list_csv`
(name, optional year, optional URI). -/
structure TLEntry where
  name : Option (List Char) := none
  year : Option Int := none
  letterboxd_uri : Option (List Char) := none
deriving DecidableEq

/-- The per-entry matching of `process_tracked_list`: URI match when the
entry has a truthy `letterboxd_uri`, and title+year match only when that
yielded no movie. -/
def match_list_entry (db : List Movie) (e : TLEntry) : Option Movie :=
  let byUri :=
    match e.letterboxd_uri with
    | some u => if u ≠ [] then match_movie_by_uri db u else none
    | none => none
  match byUri with
  | some m => some m
  | none =>
    match e.name, e.year with
    | some n, some y => if n ≠ [] && y != 0 then match_movie_by_title_year db n y else none
    | _, _ => none

/-- `UPDATE movies SET <col> = 1 WHERE id = :movie_id`. -/
def setFlagById (col : List Char) (mid : Nat) (db : List Movie) : List Movie :=
  db.map (fun m =>
    if m.id = mid then
      { m with flags := if m.flags.contains col then m.flags else col :: m.flags }
    else m)

/-- The entry loop of `process_tracked_list`:
returns the updated table together with (matched, unmatched) counts. -/
def process_tracked_list (col : List Char) : List Movie → List TLEntry → List Movie × Nat × Nat
  | db, [] => (db, 0, 0)
  | db, e :: rest =>
    match match_list_entry db e with
    | some m =>
      let r := process_tracked_list col (setFlagById col m.id db) rest
      (r.1, r.2.1 + 1, r.2.2)
    | none =>
      let r := process_tracked_list col db rest
      (r.1, r.2.1, r.2.2 + 1)

/-- One maximal run of `[-\s]` becomes a single `'_'`:
`re.sub(r'[-\s]+', '_', name)`. -/
def isDashWs (c : Char) : Bool := c == '-' || pyIsSpace c

def subDashWsAux : Bool → List Char → List Char
  | _, [] => []
  | inRun, c :: rest =>
    if isDashWs c then
      if inRun then subDashWsAux true rest else '_' :: subDashWsAux true rest
    else c :: subDashWsAux false rest

/-- `Path(filename).stem` for ordinary file names: drop the last
dot-suffix unless the only dot is the leading character. -/
def pathStem (l : List Char) : List Char :=
  let k := (l.reverse.takeWhile (fun c => c != '.')).length
  if l.length ≤ k + 1 then l else l.take (l.length - k - 1)

/-- `filename_to_column_name` from `backend/database.py`:
`'is_' + re.sub(r'[-\s]+', '_', Path(filename).stem).lower()`. -/
def filename_to_column_name (filename : List Char) : List Char :=
  ("is_".data) ++ (subDashWsAux false (pathStem filename)).map pyLower

/-- A CSV file of the tracked-lists directory: its file name and the parse
result (`none` models `parse_tracked_list_csv` raising, which
`process_all_tracked_lists` catches). -/
structure TFile where
  filename : List Char
  parsed : Option (List TLEntry)
deriving DecidableEq

/-- The per-list statistics recorded in `results`. -/
structure TLResult where
  total : Nat
  matched : Nat
  unmatched : Nat
  isError : Bool
deriving DecidableEq

/-- An item yielded by the `process_all_tracked_lists` generator. -/
inductive YieldItem where
  | progress (listName : List Char) (current total matched : Nat)
  | complete (results : List (List Char × TLResult))
deriving DecidableEq

/-- Python dict assignment `d[k] = v` (insertion order preserved,
existing key overwritten in place). -/
def dictSet (k : List Char) (v : TLResult) (d : List (List Char × TLResult)) :
    List (List Char × TLResult) :=
  if d.any (fun p => p.1 == k) then d.map (fun p => if p.1 == k then (k, v) else p)
  else d ++ [(k, v)]

/-- The file loop of `process_all_tracked_lists`: processes each CSV in
order, records an error result when a list raises, yields one progress item
per list and a final complete item. -/
def runTrackedAux (total : Nat) : List Movie → List TFile → Nat → List (List Char × TLResult) →
    List Movie × List (List Char × TLResult) × List YieldItem
  | db, [], _, results => (db, results, [YieldItem.complete results])
  | db, f :: rest, i, results =>
    let listName := pathStem f.filename
    match f.parsed with
    | some entries =>
      let col := filename_to_column_name f.filename
      let r := process_tracked_list col db entries
      let results' := dictSet listName ⟨entries.length, r.2.1, r.2.2, false⟩ results
      let next := runTrackedAux total r.1 rest (i + 1) results'
      (next.1, next.2.1, YieldItem.progress listName (i + 1) total r.2.1 :: next.2.2)
    | none =>
      let results' := dictSet listName ⟨0, 0, 0, true⟩ results
      let next := runTrackedAux total db rest (i + 1) results'
      (next.1, next.2.1, YieldItem.progress listName (i + 1) total 0 :: next.2.2)

/-- `UPDATE movies SET <col> = 0` for every column of the current CSVs. -/
def resetColumns (db : List Movie) (cols : List (List Char)) : List Movie :=
  db.map (fun m => { m with flags := m.flags.filter (fun c => !cols.contains c) })

/-- `process_all_tracked_lists` from `backend/list_processor.py` over the
sorted listing `dir` of the tracked-lists directory: reset every current
list column to 0, then process each list.  Returns the final table, the
results dict and the yields of the generator. -/
def process_all_tracked_lists (db : List Movie) (dir : List TFile) :
    List Movie × List (List Char × TLResult) × List YieldItem :=
  let cols := dir.map (fun f => filename_to_column_name f.filename)
  runTrackedAux dir.length (resetColumns db cols) dir 0 []

/-- A data row of a watchlist CSV after pandas decoding, as
`parse_watchlist_csv` sees it: `str(row['name'])`, `str(row['letterboxd_uri'])`
and the result of `int(row['year'])` (`none` models `ValueError`/`TypeError`).
The optional `date` column only adds a timestamp and is not modelled. -/
structure RawRow where
  name : List Char
  yearParsed : Option Int
  letterboxd_uri : List Char
deriving DecidableEq

/-- A validated watchlist entry returned by `parse_watchlist_csv`. -/
structure WLEntry where
  name : List Char
  year : Int
  letterboxd_uri : List Char
deriving DecidableEq

/-- The per-row validation of `parse_watchlist_csv`: strip name and URI,
require `int(year)` to succeed and lie in 1888..2100, require non-empty
name and URI; invalid rows are skipped. -/
def parseWatchlistRow (r : RawRow) : Option WLEntry :=
  let name := pyStrip r.name
  let uri := pyStrip r.letterboxd_uri
  match r.yearParsed with
  | none => none
  | some y =>
    if y < 1888 || y > 2100 then none
    else if name = [] || uri = [] then none
    else some ⟨name, y, uri⟩

/-- The row loop of `parse_watchlist_csv` from `backend/csv_parser.py`. -/
def parse_watchlist_csv (rows : List RawRow) : List WLEntry :=
  rows.filterMap parseWatchlistRow

/-- The non-key columns produced by TMDB enrichment
(`extract_enriched_data_from_tmdb` / `tmdb_client.enrich_movie_data`);
the client is external HTTP and is passed as an oracle. -/
structure Enriched where
  director : Option (List Char) := none
  country : Option (List Char) := none
  runtime : Option Int := none
  genres : Option (List (List Char)) := none
  tmdb_id : Option Int := none
  tmdb_data : Option Json := none

/-- Insert a flag column name if not already set. -/
def addFlag (col : List Char) (flags : List (List Char)) : List (List Char) :=
  if flags.contains col then flags else col :: flags

/-- One tracked list of the loop in `check_movie_in_tracked_lists`:
set the movie's column when some list entry matches by normalized URI or,
failing that, by normalized title plus year.  `mUriNorm` is the movie's URI
normalized once up front. -/
def checkListStep (mUriNorm : Option (List Char)) (mv : Movie)
    (p : List Char × List TLEntry) : Movie :=
  let isIn := p.2.any (fun e =>
    (match mUriNorm, e.letterboxd_uri with
     | some mn, some eu =>
       if mn ≠ [] && eu ≠ [] then mn == normalize_uri eu else false
     | _, _ => false)
    ||
    (match e.name, e.year with
     | some n, some y =>
       if n ≠ [] && y != 0 then
         match mv.title, mv.year with
         | some t, some my =>
           t ≠ [] && my != 0 && (normalize_title t == normalize_title n) && (my == y)
         | _, _ => false
       else false
     | _, _ => false))
  if isIn then { mv with flags := addFlag p.1 mv.flags } else mv

/-- `check_movie_in_tracked_lists` from `backend/list_processor.py`. -/
def check_movie_in_tracked_lists (m : Movie) (tls : List (List Char × List TLEntry)) : Movie :=
  tls.foldl
    (checkListStep
      (match m.letterboxd_uri with
       | some u => if u ≠ [] then some (normalize_uri u) else none
       | none => none))
    m

/-- The movies table together with the id sequence and the
processed/skipped counters of `process_csv_stream`. -/
structure CsvState where
  movies : List Movie
  nextId : Nat
  processed : Nat
  skipped : Nat

/-- The Movie record built for a new CSV row by `process_csv_stream`
(`is_favorite` / `seen_before` take the column default False;
`created_at` timestamps are not modelled). -/
def newMovieFromRow (mid : Nat) (row : WLEntry) (enr : Option Enriched) : Movie :=
  { id := mid
    title := some row.name
    year := some row.year
    letterboxd_uri := some row.letterboxd_uri
    director := match enr with | some e => e.director | none => none
    country := match enr with | some e => e.country | none => none
    runtime := match enr with | some e => e.runtime | none => none
    genres := match enr with | some e => e.genres | none => some []
    tmdb_id := match enr with | some e => e.tmdb_id | none => none
    tmdb_data := match enr with | some e => e.tmdb_data | none => none
    is_favorite := some false
    seen_before := some false
    notes := none
    flags := [] }

/-- One iteration of the movie loop of `process_csv_stream`
(`backend/routes.py`): skip when a movie with the same URI, or the same
title and year, already exists (still re-checking its tracked lists);
otherwise enrich and insert a new row.  `enrich` is the TMDB
cache-or-client oracle. -/
def process_csv_row (enrich : WLEntry → Option Enriched)
    (tls : List (List Char × List TLEntry)) (s : CsvState) (row : WLEntry) : CsvState :=
  let existing :=
    match s.movies.find? (fun m => m.letterboxd_uri == some row.letterboxd_uri) with
    | some m => some m
    | none =>
      s.movies.find? (fun m => (m.title == some row.name) && (m.year == some row.year))
  match existing with
  | some ex =>
    let movies' := s.movies.map (fun m =>
      if m.id = ex.id then check_movie_in_tracked_lists m tls else m)
    { s with movies := movies', skipped := s.skipped + 1 }
  | none =>
    let mv := check_movie_in_tracked_lists (newMovieFromRow s.nextId row (enrich row)) tls
    { s with movies := s.movies ++ [mv], nextId := s.nextId + 1, processed := s.processed + 1 }

/-- The movie loop of `process_csv_stream` over the parsed CSV rows. -/
def process_csv_rows (enrich : WLEntry → Option Enriched)
    (tls : List (List Char × List TLEntry)) : CsvState → List WLEntry → CsvState
  | s, [] => s
  | s, r :: rest => process_csv_rows enrich tls (process_csv_row enrich tls s r) rest

/-- `column.ilike('%' + word + '%')` with `%`/`_` escaped in `word`:
case-insensitive substring test. -/
def ilikeContains (field word : List Char) : Bool :=
  containsSeq (word.map pyLower) (field.map pyLower)

/-- The per-field conjunction of the search filter: NULL fields match
nothing (SQL three-valued logic makes both the bare `ilike` on a NULL
title and the explicit `isnot(None)` guards on notes/director false). -/
def searchFieldCond (fieldVal : Option (List Char)) (words : List (List Char)) : Bool :=
  match fieldVal with
  | some t => words.all (fun w => ilikeContains t w)
  | none => false

/-- The search predicate of `get_movies` (`backend/routes.py`): some one
field among title, notes, director contains every search word. -/
def search_filter (words : List (List Char)) (m : Movie) : Bool :=
  searchFieldCond m.title words || searchFieldCond m.notes words ||
    searchFieldCond m.director words

/-- `str.split()` with no argument: split on whitespace runs, no empty
parts.  `acc` holds the current word reversed. -/
def splitWsAux : List Char → List Char → List (List Char)
  | acc, [] => if acc = [] then [] else [acc.reverse]
  | acc, c :: rest =>
    if pyIsSpace c then
      if acc = [] then splitWsAux [] rest else acc.reverse :: splitWsAux [] rest
    else splitWsAux (c :: acc) rest

def pySplitWs (l : List Char) : List (List Char) := splitWsAux [] l

/-- The `if search:` block of `get_movies`: trim, split into words, and
filter the candidate rows with `search_filter`. -/
def apply_search (search : List Char) (db : List Movie) : List Movie :=
  if search = [] then db
  else
    let searchTrimmed := pyStrip search
    if searchTrimmed = [] then db
    else
      let words := (pySplitWs searchTrimmed).filter (fun w => w ≠ [])
      if words = [] then db
      else db.filter (search_filter words)

/-- One movie object of the profile-export JSON, with the fields written by
`export_profile_to_json` for `include_tmdb_data=True`.  The `tmdb_data` key
is present only when the stored value is truthy (`none` = key absent);
`created_at`/`updated_at` timestamps are not modelled. -/
structure MovieExport where
  title : Option (List Char)
  year : Option Int
  letterboxd_uri : Option (List Char)
  director : Option (List Char)
  country : Option (List Char)
  runtime : Option Int
  genres : List (List Char)
  tmdb_id : Option Int
  is_favorite : Option Bool
  seen_before : Bool
  notes : Option (List Char)
  tmdb_data : Option Json

/-- The per-movie dict of `export_profile_to_json`
(`backend/profile_export.py`, `include_tmdb_data=True`). -/
def exportMovie (m : Movie) : MovieExport :=
  { title := m.title
    year := m.year
    letterboxd_uri := m.letterboxd_uri
    director := m.director
    country := m.country
    runtime := m.runtime
    genres := match m.genres with | some g => g | none => []
    tmdb_id := m.tmdb_id
    is_favorite := m.is_favorite
    seen_before := match m.seen_before with | some b => b | none => false
    notes := match m.notes with
             | some n => if n = [] then none else some n
             | none => none
    tmdb_data := match m.tmdb_data with
                 | some d => if pyTruthy d then some d else none
                 | none => none }

/-- `export_profile_to_json`: the movies array (favorite directors, seen
countries, preferences and metadata counters are separate keys that
`import_profile_from_json` does not read). -/
def export_profile_to_json (db : List Movie) : List MovieExport := db.map exportMovie

/-- The Movie row built by `import_profile_from_json` for one JSON movie
object; `none` when `letterboxd_uri` is missing or falsy (the entry is
counted as failed). -/
def importMovie (mid : Nat) (e : MovieExport) : Option Movie :=
  match e.letterboxd_uri with
  | some u =>
    if u = [] then none
    else some
      { id := mid
        title := e.title
        year := e.year
        letterboxd_uri := some u
        director := e.director
        country := e.country
        runtime := e.runtime
        genres := some e.genres
        tmdb_id := e.tmdb_id
        tmdb_data := e.tmdb_data
        is_favorite := e.is_favorite
        seen_before := some e.seen_before
        notes := e.notes
        flags := [] }
  | none => none

/-- The import loop: returns (new rows, next id, movies_imported,
movies_failed). -/
def importBuild : Nat → List MovieExport → List Movie × Nat × Nat × Nat
  | nid, [] => ([], nid, 0, 0)
  | nid, e :: rest =>
    match importMovie nid e with
    | some m =>
      let r := importBuild (nid + 1) rest
      (m :: r.1, r.2.1, r.2.2.1 + 1, r.2.2.2)
    | none =>
      let r := importBuild nid rest
      (r.1, r.2.1, r.2.2.1, r.2.2.2 + 1)

/-- All-distinct check for the non-NULL URIs, as the UNIQUE constraint on
`movies.letterboxd_uri` enforces at commit. -/
def urisNodup : List Movie → Bool
  | [] => true
  | m :: rest =>
    (match m.letterboxd_uri with
     | some u => !(rest.any (fun m2 => m2.letterboxd_uri == some u))
     | none => true) && urisNodup rest

/-- `import_profile_from_json` (`backend/profile_export.py`): clear the
movies table, insert one row per JSON movie object with a truthy
`letterboxd_uri`, and commit.  The final Bool is false when the commit
violates the UNIQUE `letterboxd_uri` constraint, in which case the
transaction (including the clearing) is rolled back and the error re-raised. -/
def import_profile_from_json (db : List Movie) (nextId : Nat) (entries : List MovieExport) :
    (List Movie × Nat) × Nat × Nat × Bool :=
  let r := importBuild nextId entries
  if urisNodup r.1 then ((r.1, r.2.1), r.2.2.1, r.2.2.2, true)
  else ((db, nextId), r.2.2.1, r.2.2.2, false)

/-- The `movie_tmdb_data` argument of `check_movie_availability`
(`Union[dict, str, None]`).  For a JSON-string column value, `parsed`
carries the result of `json.loads` (`Option.none` models
`JSONDecodeError`, which the code turns into `{}`). -/
inductive TmdbArg where
  | none
  | jstr (s : List Char) (parsed : Option Json)
  | jval (j : Json)

/-- Lookup in a JSON object's field list (Python dicts have unique keys;
`find?` models `d[k]`). -/
def lookupObj (fs : List (List Char × Json)) (k : List Char) : Option Json :=
  (fs.find? (fun p => p.1 == k)).map (fun p => p.2)

/-- `j.get(k, dflt)`; `Option.none` models Python raising
`AttributeError` because the receiver is not a dict. -/
def pyDictGet (j : Json) (k : List Char) (dflt : Json) : Option Json :=
  match j with
  | .obj fs => some ((lookupObj fs k).getD dflt)
  | _ => Option.none

/-- `[p.get('provider_id') for p in v if p.get('provider_id')]`:
`Option.none` models Python raising because `v` is not a list or one of
its elements is not a dict. -/
def providerIdOfEntry (p : Json) : Option Json :=
  match p with
  | .obj fs => some ((lookupObj fs ("provider_id".data)).getD Json.null)
  | _ => Option.none

def providerIdsOf (v : Json) : Option (List Json) :=
  match v with
  | .arr xs => (xs.mapM providerIdOfEntry).map (List.filter pyTruthy)
  | _ => Option.none

/-- One `avail_type` test of the loop in `check_movie_availability`;
`p in providers` compares with `==`. -/
def availTypeMatches (pref : List Int) (t : List Char) (fl fr rn buys : List Json) : Bool :=
  if t == "for_free".data then
    pref.any (fun pid => fl.contains (Json.num pid) || fr.contains (Json.num pid))
  else if t == "for_rent".data then
    pref.any (fun pid => rn.contains (Json.num pid))
  else if t == "to_buy".data then
    pref.any (fun pid => buys.contains (Json.num pid))
  else if t == "unavailable".data then
    !(pref.any (fun pid => fl.contains (Json.num pid) || fr.contains (Json.num pid) ||
        rn.contains (Json.num pid) || buys.contains (Json.num pid)))
  else false

/-- The `watch_providers` extraction of `check_movie_availability` over the
fields of the parsed dict: `tmdb_data.get('watch', {}).get('providers', {})`,
falling back to `tmdb_data.get('watch/providers', {})` when falsy. -/
def extractWatchProviders (fields : List (List Char × Json)) : Option Json :=
  let w := (lookupObj fields ("watch".data)).getD (.obj [])
  (pyDictGet w ("providers".data) (.obj [])).map (fun wp0 =>
    if pyTruthy wp0 then wp0 else (lookupObj fields ("watch/providers".data)).getD (.obj []))

/-- `check_movie_availability` from `backend/routes.py`.  `Option.none`
models an uncaught Python exception (malformed nested data). -/
def check_movie_availability (movie_tmdb_data : TmdbArg) (country_code : List Char)
    (preferred_services : List Int) (availability_types : List (List Char)) : Option Bool :=
  let argTruthy : Bool :=
    match movie_tmdb_data with
    | .none => false
    | .jstr s _ => !s.isEmpty
    | .jval j => pyTruthy j
  if !argTruthy || preferred_services.isEmpty || availability_types.isEmpty then some false
  else
    let dataJ : Json :=
      match movie_tmdb_data with
      | .none => .obj []
      | .jstr _ p => p.getD (.obj [])
      | .jval j => j
    match dataJ with
    | .obj fields => do
      let wp ← extractWatchProviders fields
      if !pyTruthy wp then
        pure (availability_types.contains ("unavailable".data))
      else do
        let results ← pyDictGet wp ("results".data) (.obj [])
        let cps ← pyDictGet results (country_code.map pyUpper) (.obj [])
        if !pyTruthy cps then
          pure (availability_types.contains ("unavailable".data))
        else do
          let fl ← pyDictGet cps ("flatrate".data) (.arr [])
          let fr ← pyDictGet cps ("free".data) (.arr [])
          let rn ← pyDictGet cps ("rent".data) (.arr [])
          let buys ← pyDictGet cps ("buy".data) (.arr [])
          let flP ← providerIdsOf fl
          let frP ← providerIdsOf fr
          let rnP ← providerIdsOf rn
          let buysP ← providerIdsOf buys
          pure (availability_types.any (fun t =>
            availTypeMatches preferred_services t flP frP rnP buysP))
    | _ => some false

/-- Decimal digits of a natural number (fuel-based so it evaluates in the
kernel). -/
def natDigitsAux : Nat → Nat → List Char
  | 0, _ => []
  | fuel + 1, n =>
    if n < 10 then [Char.ofNat (48 + n)]
    else natDigitsAux fuel (n / 10) ++ [Char.ofNat (48 + n % 10)]

def natToChars (n : Nat) : List Char := natDigitsAux (n + 1) n

/-- Python `str(year)` for the integers used here. -/
def intToChars (i : Int) : List Char :=
  if i < 0 then '-' :: natToChars i.natAbs else natToChars i.toNat

/-- The request body of `POST /api/movies` (`add_movie`).  `year := none`
models an absent or non-integer year; `is_favorite`/`seen_before` default
to False via `.get(..., False)`. -/
structure AddMovieReq where
  title : Option (List Char) := none
  year : Option Int := none
  letterboxd_uri : Option (List Char) := none
  notes : Option (List Char) := none
  is_favorite : Bool := false
  seen_before : Bool := false

/-- `add_movie` from `backend/routes.py`: validate title and year, reject
duplicates by URI (when provided) or by title+year, otherwise insert an
enriched row, generating a synthetic `letterboxd:film/...` URI when none was
given.  The commit's UNIQUE `letterboxd_uri` constraint rolls the insert
back when the (synthetic) URI collides.  HTTP responses are not modelled. -/
def add_movie (enrich : List Char → Int → Option Enriched)
    (tls : List (List Char × List TLEntry)) (req : AddMovieReq)
    (db : List Movie) (nextId : Nat) : List Movie × Nat :=
  let title : List Char :=
    match req.title with
    | some t => if t ≠ [] then pyStrip t else []
    | none => []
  match req.year with
  | none => (db, nextId)
  | some year =>
    if title = [] then (db, nextId)
    else if year == 0 || year < 1888 || year > 2100 then (db, nextId)
    else
      let uri : Option (List Char) :=
        req.letterboxd_uri.bind (fun u =>
          if u = [] then none
          else if pyStrip u = [] then none else some (pyStrip u))
      let notes : Option (List Char) :=
        req.notes.bind (fun n => if pyStrip n = [] then none else some (pyStrip n))
      let existing : Option Movie :=
        match uri with
        | some u =>
          match db.find? (fun m => m.letterboxd_uri == some u) with
          | some m => some m
          | none => db.find? (fun m => (m.title == some title) && (m.year == some year))
        | none => db.find? (fun m => (m.title == some title) && (m.year == some year))
      match existing with
      | some _ => (db, nextId)
      | none =>
        let enr := enrich title year
        let finalUri : List Char :=
          match uri with
          | some u => u
          | none =>
            ("letterboxd:film/".data) ++
              ((title.map pyLower).map (fun c => if c == ' ' then '-' else c)) ++
              ('-' :: intToChars year)
        let mv : Movie :=
          { id := nextId
            title := some title
            year := some year
            letterboxd_uri := some finalUri
            director := match enr with | some e => e.director | none => none
            country := match enr with | some e => e.country | none => none
            runtime := match enr with | some e => e.runtime | none => none
            genres := match enr with | some e => e.genres | none => some []
            tmdb_id := match enr with | some e => e.tmdb_id | none => none
            tmdb_data := match enr with | some e => e.tmdb_data | none => none
            is_favorite := some req.is_favorite
            seen_before := some req.seen_before
            notes := notes
            flags := [] }
        let mv := check_movie_in_tracked_lists mv tls
        if db.any (fun m => m.letterboxd_uri == some finalUri) then (db, nextId)
        else (db ++ [mv], nextId + 1)

/-- The importing of favorite directors / seen countries in
`import_profile_from_json_stream`: keep truthy strings, strip them
(`Option.none` in the input models a non-string JSON value, skipped by the
`isinstance` check).  The existence check queries the just-cleared table
with autoflush off, so duplicates in the input are all added. -/
def importNames (l : List (Option (List Char))) : List (List Char) :=
  l.filterMap (fun d =>
    match d with
    | some n => if n ≠ [] && pyStrip n ≠ [] then some (pyStrip n) else none
    | none => none)

/-- All-distinct check for a name column, as its UNIQUE constraint
enforces at commit. -/
def namesNodup : List (List Char) → Bool
  | [] => true
  | n :: rest => !(rest.contains n) && namesNodup rest

/-- The per-user database state: movies, favorite directors
(`director_name` column), seen countries (`country_name` column) and the id
sequence. -/
structure DBState where
  movies : List Movie := []
  directors : List (List Char) := []
  countries : List (List Char) := []
  nextId : Nat := 1

/-- The mutating operations of the HTTP API on one user's tables.  External
inputs (request bodies, parsed CSVs, the TMDB oracle) are constructor
arguments. -/
inductive Op where
  | ingest (rows : List WLEntry) (tls : List (List Char × List TLEntry))
      (enrich : WLEntry → Option Enriched)
  | addMovie (req : AddMovieReq) (tls : List (List Char × List TLEntry))
      (enrich : List Char → Int → Option Enriched)
  | importProfile (entries : List MovieExport)
  | importStream (entries : List MovieExport) (directors : List (Option (List Char)))
      (countries : List (Option (List Char)))
  | deleteMovie (mid : Nat)
  | setFavorite (mid : Nat) (b : Bool)
  | setSeenBefore (mid : Nat) (b : Bool)
  | setNotes (mid : Nat) (n : List Char)
  | addFavoriteDirector (name : List Char)
  | removeFavoriteDirector (name : List Char)
  | addSeenCountry (name : List Char)
  | removeSeenCountry (name : List Char)
  | processTracked (dir : List TFile)
  | clearCache
  | recache (enrich : Movie → Option Enriched)

/-- `notes[:5000]` truncation of `set_movie_notes`. -/
def truncNotes (n : List Char) : List Char := if n.length > 5000 then n.take 5000 else n

/-- The effect of one API operation on the user's database state.
Each case models the corresponding route handler of `backend/routes.py`
(and `backend/profile_export.py` for the imports), including the
rollback semantics of a commit rejected by a UNIQUE constraint. -/
def applyOp (s : DBState) : Op → DBState
  | .ingest rows tls enrich =>
    let r := process_csv_rows enrich tls ⟨s.movies, s.nextId, 0, 0⟩ rows
    { s with movies := r.movies, nextId := r.nextId }
  | .addMovie req tls enrich =>
    let r := add_movie enrich tls req s.movies s.nextId
    { s with movies := r.1, nextId := r.2 }
  | .importProfile entries =>
    let r := import_profile_from_json s.movies s.nextId entries
    { s with movies := r.1.1, nextId := r.1.2 }
  | .importStream entries directors countries =>
    -- import_profile_from_json_stream: clears movies, directors and
    -- countries, imports movies and commits; on success the directors and
    -- countries are re-imported and committed separately (a failing second
    -- commit rolls back only the name tables).
    let r := importBuild s.nextId entries
    if urisNodup r.1 then
      let ds := importNames directors
      let cs := importNames countries
      if namesNodup ds && namesNodup cs then
        { movies := r.1, directors := ds, countries := cs, nextId := r.2.1 }
      else
        { movies := r.1, directors := [], countries := [], nextId := r.2.1 }
    else s
  | .deleteMovie mid => { s with movies := s.movies.filter (fun m => m.id != mid) }
  | .setFavorite mid b =>
    { s with movies := s.movies.map (fun m =>
        if m.id = mid then { m with is_favorite := some b } else m) }
  | .setSeenBefore mid b =>
    { s with movies := s.movies.map (fun m =>
        if m.id = mid then { m with seen_before := some b } else m) }
  | .setNotes mid n =>
    { s with movies := s.movies.map (fun m =>
        if m.id = mid then { m with notes := some (truncNotes n) } else m) }
  | .addFavoriteDirector name =>
    if s.directors.contains name then s else { s with directors := s.directors ++ [name] }
  | .removeFavoriteDirector name =>
    { s with directors := s.directors.filter (fun d => d != name) }
  | .addSeenCountry name =>
    if s.countries.contains name then s else { s with countries := s.countries ++ [name] }
  | .removeSeenCountry name =>
    { s with countries := s.countries.filter (fun c => c != name) }
  | .processTracked dir =>
    { s with movies := (process_all_tracked_lists s.movies dir).1 }
  | .clearCache => { s with movies := [] }
  | .recache enrich =>
    { s with movies := s.movies.map (fun m =>
        match enrich m with
        | some e =>
          { m with director := e.director, country := e.country, runtime := e.runtime,
                   genres := some (e.genres.getD []), tmdb_id := e.tmdb_id,
                   tmdb_data := e.tmdb_data }
        | none => m) }

/-- A sequence of API calls applied to the freshly created per-user tables. -/
def applyOps (ops : List Op) : DBState := ops.foldl applyOp {}

/-- No leading `"the "`, `"a "` or `"an "`. -/
def noLeadingArticle (l : List Char) : Bool :=
  !(("the ".data).isPrefixOf l) && !(("a ".data).isPrefixOf l) &&
    !(("an ".data).isPrefixOf l)

/-- No two adjacent `' '` characters. -/
def noDoubleSpace : List Char → Bool
  | c :: d :: rest => !(c == ' ' && d == ' ') && noDoubleSpace (d :: rest)
  | _ => true

/-- Modelled from the spec's words (claim C2), for comparison with
`match_movie_by_uri`: URI matching as "exact equality, then equality after
normalizing both sides with normalize_uri". -/
def specC2UriMatches (db : List Movie) (u : List Char) : Bool :=
  db.any (fun m => m.letterboxd_uri == some u) ||
  db.any (fun m =>
    match m.letterboxd_uri with
    | some su => normalize_uri su == normalize_uri u
    | none => false)

/-- All-distinct check for the (title, year) pairs with both present, the
duplicate class `process_csv_stream` guards against. -/
def titleYearNodup : List Movie → Bool
  | [] => true
  | m :: rest =>
    (match m.title, m.year with
     | some t, some y => !(rest.any (fun m2 => (m2.title == some t) && (m2.year == some y)))
     | _, _ => true) && titleYearNodup rest

/-- The `results` value of the watch-providers section, as
`check_movie_availability` computes it. -/
def availResultsOf (fields : List (List Char × Json)) : Option Json :=
  (extractWatchProviders fields).bind (fun wp => pyDictGet wp ("results".data) (.obj []))

/-- The per-country provider dict, as `check_movie_availability` computes it. -/
def availCountryOf (fields : List (List Char × Json)) (country_code : List Char) : Option Json :=
  (availResultsOf fields).bind (fun rs => pyDictGet rs (country_code.map pyUpper) (.obj []))

/-- A stored movie whose URI is the path form `http://letterboxd.com/y`. -/
def cexMovieC2 : Movie :=
  { id := 1
    title := some ("y movie".data)
    year := some (2000 : Int)
    letterboxd_uri := some ("http://letterboxd.com/y".data) }

/-- A list URI whose single normalization still contains `letterboxd.com/`,
so `normalize_uri` is not idempotent at it. -/
def cexUriC2 : List Char := "https://boxd.it/http://letterboxd.com/y".data

/-- A stored movie for the tracked-list counterexample. -/
def cexMovieC1 : Movie :=
  { id := 1
    title := some ("x".data)
    year := some (2000 : Int)
    letterboxd_uri := some ("u".data) }

/-- Tracked list `a-b.csv`, whose single entry matches `cexMovieC1`. -/
def cexFileC1a : TFile :=
  { filename := "a-b.csv".data
    parsed := some [{ name := some ("x".data), year := some (2000 : Int),
                      letterboxd_uri := some ("u".data) }] }

/-- Tracked list `a_b.csv` with no entries; its column name collides with
that of `a-b.csv`. -/
def cexFileC1b : TFile :=
  { filename := "a_b.csv".data
    parsed := some [] }

/-- A tracked-list entry carrying the URI of `cexMovieC1`. -/
def cexEntryByUri : TLEntry :=
  { letterboxd_uri := some ("u".data) }

/-- A tracked-list entry matching no stored movie. -/
def cexEntryNoMatch : TLEntry :=
  { name := some ("zzz".data)
    year := some (1903 : Int)
    letterboxd_uri := none }

/-- A tracked-list file whose parse raises, for the error-isolation witness. -/
def cexFileC8 : TFile :=
  { filename := "bad.csv".data
    parsed := none }

/-- A stored movie with NULL genres and empty notes, for the export/import
round-trip counterexample. -/
def cexMovieC6 : Movie :=
  { id := 5
    title := some ("t".data)
    year := some (1999 : Int)
    letterboxd_uri := some ("uu".data)
    genres := none
    notes := some [] }

/-! ## Theorems -/

/-- C4: every entry returned by `parse_watchlist_csv` has a non-empty name,
a non-empty `letterboxd_uri` and a year in 1888..2100; a row with an
unparseable or out-of-range year, or an empty name or URI, is skipped
(dropped from the output) rather than failing the parse. -/
theorem c4_parse_watchlist_validation (rows : List RawRow) :
    (∀ e ∈ parse_watchlist_csv rows,
      e.name ≠ [] ∧ e.letterboxd_uri ≠ [] ∧ 1888 ≤ e.year ∧ e.year ≤ 2100) ∧
    (∀ r rest, parseWatchlistRow r = none →
      parse_watchlist_csv (r :: rest) = parse_watchlist_csv rest) := by
  constructor
  · intro e he
    obtain ⟨r, _, hr⟩ := List.mem_filterMap.mp he
    unfold parseWatchlistRow at hr
    cases hy : r.yearParsed with
    | none => rw [hy] at hr; exact absurd hr (by simp)
    | some y =>
      rw [hy] at hr
      dsimp only at hr
      split at hr
      · exact absurd hr (by simp)
      · split at hr
        · exact absurd hr (by simp)
        · rename_i hyr hne
          simp only [Bool.or_eq_true, decide_eq_true_eq, not_or] at hyr hne
          have he' : WLEntry.mk (pyStrip r.name) y (pyStrip r.letterboxd_uri) = e := by
            injection hr
          subst he'
          exact ⟨hne.1, hne.2, by show 1888 ≤ y; omega, by show y ≤ 2100; omega⟩
  · intro r rest hr
    simp [parse_watchlist_csv, hr]

/-- C4 witness: a concrete parse containing a valid row together with rows
skipped for a bad year, an out-of-range year and an empty name. -/
theorem c4_witness :
    (∀ e ∈ parse_watchlist_csv
        [⟨"A".data, some 1999, "boxd.it/a".data⟩, ⟨"B".data, none, "boxd.it/b".data⟩,
         ⟨"C".data, some 1700, "boxd.it/c".data⟩, ⟨"  ".data, some 1999, "boxd.it/d".data⟩],
      e.name ≠ [] ∧ e.letterboxd_uri ≠ [] ∧ 1888 ≤ e.year ∧ e.year ≤ 2100) ∧
    parse_watchlist_csv [⟨"B".data, none, "boxd.it/b".data⟩, ⟨"A".data, some 1999, "boxd.it/a".data⟩] =
      parse_watchlist_csv [⟨"A".data, some 1999, "boxd.it/a".data⟩] :=
  ⟨(c4_parse_watchlist_validation _).1,
   (c4_parse_watchlist_validation []).2 ⟨"B".data, none, "boxd.it/b".data⟩ _ (by decide)⟩

theorem splitWsAux_ne_nil (l : List Char) : ∀ acc : List Char, acc ≠ [] → splitWsAux acc l ≠ [] := by
  induction l with
  | nil => intro acc h; simp [splitWsAux, h]
  | cons c rest ih =>
    intro acc h
    by_cases hc : pyIsSpace c = true
    · simp [splitWsAux, hc, h]
    · simpa [splitWsAux, hc] using ih (c :: acc) (by simp)

theorem splitWsAux_words_ne_nil (l : List Char) :
    ∀ acc w, w ∈ splitWsAux acc l → w ≠ [] := by
  induction l with
  | nil =>
    intro acc w hw
    by_cases h : acc = [] <;> simp [splitWsAux, h] at hw
    subst hw; simp [h]
  | cons c rest ih =>
    intro acc w hw
    by_cases hc : pyIsSpace c = true
    · by_cases h : acc = []
      · rw [splitWsAux, if_pos hc, if_pos h] at hw
        exact ih [] w hw
      · rw [splitWsAux, if_pos hc, if_neg h] at hw
        rcases List.mem_cons.mp hw with rfl | hw
        · simp [h]
        · exact ih [] w hw
    · rw [splitWsAux, if_neg hc] at hw
      exact ih (c :: acc) w hw

theorem head_lstrip (l : List Char) : ∀ c, (lstrip l).head? = some c → pyIsSpace c = false := by
  induction l with
  | nil => intro c h; simp [lstrip] at h
  | cons a rest ih =>
    intro c h
    by_cases ha : pyIsSpace a = true
    · exact ih c (by simpa [lstrip, List.dropWhile, ha] using h)
    · rw [lstrip, List.dropWhile] at h
      simp only [ha, Bool.false_eq_true, if_false] at h
      simp only [List.head?] at h
      cases h
      simpa using ha

theorem rstrip_cons_head (c : Char) (rest : List Char) (h : rstrip (c :: rest) ≠ []) :
    (rstrip (c :: rest)).head? = some c := by
  rw [rstrip] at h ⊢
  cases hr : rstrip rest with
  | nil =>
    rw [hr] at h
    by_cases hc : pyIsSpace c = true
    · simp [hc] at h
    · simp [hc]
  | cons a t => rfl

theorem head_pyStrip (l : List Char) (c : Char) (h : (pyStrip l).head? = some c) :
    pyIsSpace c = false := by
  unfold pyStrip at h
  cases hl : lstrip l with
  | nil => rw [hl] at h; simp [rstrip] at h
  | cons a t =>
    rw [hl] at h
    have hne : rstrip (a :: t) ≠ [] := by
      intro hnil; rw [hnil] at h; simp at h
    rw [rstrip_cons_head a t hne] at h
    cases h
    exact head_lstrip l c (by rw [hl]; rfl)

theorem pySplitWs_pyStrip_ne_nil (s : List Char) (h : pyStrip s ≠ []) :
    pySplitWs (pyStrip s) ≠ [] := by
  cases hs : pyStrip s with
  | nil => exact absurd hs h
  | cons c t =>
    have hc : pyIsSpace c = false := head_pyStrip s c (by rw [hs]; rfl)
    rw [pySplitWs, splitWsAux, if_neg (by simp [hc])]
    exact splitWsAux_ne_nil t [c] (by simp)

theorem searchFieldCond_iff (f : Option (List Char)) (ws : List (List Char)) :
    searchFieldCond f ws = true ↔
      ∃ t, f = some t ∧ ∀ w ∈ ws, ilikeContains t w = true := by
  cases f with
  | none => simp [searchFieldCond]
  | some t => simp [searchFieldCond, List.all_eq_true]

/-- C5: with a non-blank search string, the search block of `get_movies`
filters the candidate rows to exactly those having some single field among
title, notes and director (a NULL field matching nothing) that contains
every whitespace-separated search word case-insensitively; in particular a
movie whose fields jointly cover the words but where no one field contains
them all is excluded. -/
theorem c5_search_all_words_single_field (search : List Char) (db : List Movie) (m : Movie)
    (hne : pyStrip search ≠ []) :
    m ∈ apply_search search db ↔
      m ∈ db ∧ ∃ t, (m.title = some t ∨ m.notes = some t ∨ m.director = some t) ∧
        ∀ w ∈ pySplitWs (pyStrip search), ilikeContains t w = true := by
  have hsearch : search ≠ [] := by
    intro h; exact hne (by simp [h, pyStrip, lstrip, rstrip])
  have hwordsfull : (pySplitWs (pyStrip search)).filter (fun w => w ≠ []) =
      pySplitWs (pyStrip search) := by
    refine List.filter_eq_self.mpr ?_
    intro w hw
    simpa using splitWsAux_words_ne_nil (pyStrip search) [] w hw
  have hwords : (pySplitWs (pyStrip search)).filter (fun w => w ≠ []) ≠ [] := by
    rw [hwordsfull]; exact pySplitWs_pyStrip_ne_nil search hne
  rw [apply_search, if_neg hsearch, if_neg hne, if_neg hwords, hwordsfull, List.mem_filter]
  refine and_congr_right (fun _ => ?_)
  rw [search_filter]
  simp only [Bool.or_eq_true, searchFieldCond_iff]
  constructor
  · rintro ((⟨t, ht, hall⟩ | ⟨t, ht, hall⟩) | ⟨t, ht, hall⟩)
    · exact ⟨t, Or.inl ht, hall⟩
    · exact ⟨t, Or.inr (Or.inl ht), hall⟩
    · exact ⟨t, Or.inr (Or.inr ht), hall⟩
  · rintro ⟨t, (ht | ht | ht), hall⟩
    · exact Or.inl (Or.inl ⟨t, ht, hall⟩)
    · exact Or.inl (Or.inr ⟨t, ht, hall⟩)
    · exact Or.inr ⟨t, ht, hall⟩

/-- C5 witness: the theorem applied to the movie "12 Years a Slave" and the
search string "years slave". -/
theorem c5_witness :
    pyStrip ("years slave".data) ≠ [] ∧
    (({ id := 2, title := some ("12 Years a Slave".data) } : Movie) ∈
        apply_search ("years slave".data)
          [{ id := 2, title := some ("12 Years a Slave".data) }] ↔
      ({ id := 2, title := some ("12 Years a Slave".data) } : Movie) ∈
          [({ id := 2, title := some ("12 Years a Slave".data) } : Movie)] ∧
        ∃ t, (({ id := 2, title := some ("12 Years a Slave".data) } : Movie).title = some t ∨
              ({ id := 2, title := some ("12 Years a Slave".data) } : Movie).notes = some t ∨
              ({ id := 2, title := some ("12 Years a Slave".data) } : Movie).director = some t) ∧
          ∀ w ∈ pySplitWs (pyStrip ("years slave".data)), ilikeContains t w = true) :=
  ⟨by decide, c5_search_all_words_single_field ("years slave".data) _ _ (by decide)⟩

/-- C10: `check_movie_availability` returns False for a None, empty-string
or empty-dict `tmdb_data` and for empty `preferred_services` or
`availability_types`; and for a (non-empty, requested with non-empty
preferred services) movie dict whose extracted watch-provider section is
empty, or whose provider section has no data for the requested country, it
returns True exactly when `'unavailable'` is among the requested
availability types. -/
theorem c10_availability (arg : TmdbArg) (cc : List Char) (pref : List Int)
    (types : List (List Char)) (fields : List (List Char × Json)) (p : Option Json) :
    (check_movie_availability TmdbArg.none cc pref types = some false) ∧
    (check_movie_availability (TmdbArg.jstr [] p) cc pref types = some false) ∧
    (check_movie_availability (TmdbArg.jval (Json.obj [])) cc pref types = some false) ∧
    (pref = [] → check_movie_availability arg cc pref types = some false) ∧
    (types = [] → check_movie_availability arg cc pref types = some false) ∧
    (fields ≠ [] → pref ≠ [] →
      (extractWatchProviders fields).isSome = true →
      pyTruthy ((extractWatchProviders fields).getD Json.null) = false →
      check_movie_availability (TmdbArg.jval (Json.obj fields)) cc pref types =
        some (types.contains ("unavailable".data))) ∧
    (fields ≠ [] → pref ≠ [] →
      pyTruthy ((extractWatchProviders fields).getD Json.null) = true →
      (availCountryOf fields cc).isSome = true →
      pyTruthy ((availCountryOf fields cc).getD Json.null) = false →
      check_movie_availability (TmdbArg.jval (Json.obj fields)) cc pref types =
        some (types.contains ("unavailable".data))) := by
  refine ⟨rfl, rfl, rfl, ?_, ?_, ?_, ?_⟩
  · intro h
    subst h
    simp [check_movie_availability]
  · intro h
    subst h
    simp [check_movie_availability]
  · intro hf hp hsome htr
    obtain ⟨wp, hwp⟩ := Option.isSome_iff_exists.mp hsome
    rw [hwp] at htr
    simp only [Option.getD_some] at htr
    cases types with
    | nil => simp [check_movie_availability]
    | cons t ts =>
      have hcond : (!pyTruthy (Json.obj fields) || pref.isEmpty || (t :: ts).isEmpty) = false := by
        simp [pyTruthy, List.isEmpty_iff, hf, hp]
      simp only [check_movie_availability, hcond, Bool.false_eq_true, if_false,
        hwp, Option.bind_eq_bind, Option.some_bind, htr, Bool.not_false, if_true]
      rfl
  · intro hf hp htr hcsome hcf
    have hsome : (extractWatchProviders fields).isSome = true := by
      cases h : extractWatchProviders fields with
      | none => rw [h] at htr; simp [pyTruthy] at htr
      | some wp => rfl
    obtain ⟨wp, hwp⟩ := Option.isSome_iff_exists.mp hsome
    rw [hwp] at htr
    simp only [Option.getD_some] at htr
    have hrs : (availResultsOf fields).isSome = true := by
      cases h : availResultsOf fields with
      | none => rw [availCountryOf, h] at hcsome; simp at hcsome
      | some rs => rfl
    obtain ⟨rs, hrs'⟩ := Option.isSome_iff_exists.mp hrs
    obtain ⟨cps, hcps⟩ := Option.isSome_iff_exists.mp hcsome
    rw [hcps] at hcf
    simp only [Option.getD_some] at hcf
    have hrsv : pyDictGet wp ("results".data) (.obj []) = some rs := by
      have h2 := hrs'
      rw [availResultsOf, hwp] at h2
      simpa using h2
    have hcpsv : pyDictGet rs (cc.map pyUpper) (.obj []) = some cps := by
      have h2 := hcps
      rw [availCountryOf, hrs'] at h2
      simpa using h2
    cases types with
    | nil => simp [check_movie_availability]
    | cons t ts =>
      have hcond : (!pyTruthy (Json.obj fields) || pref.isEmpty || (t :: ts).isEmpty) = false := by
        simp [pyTruthy, List.isEmpty_iff, hf, hp]
      simp only [check_movie_availability, hcond, Bool.false_eq_true, if_false,
        hwp, Option.bind_eq_bind, Option.some_bind, htr, Bool.not_true, if_false,
        hrsv, hcpsv, hcf, Bool.not_false, if_true]
      rfl

/-- C10 witness: the falsy cases and a movie dict whose `watch` section has
no providers, with `'unavailable'` requested. -/
theorem c10_witness :
    check_movie_availability
        (TmdbArg.jval (Json.obj [("watch".data, Json.obj [])])) ("US".data) [8]
        ["unavailable".data] =
      some (["unavailable".data].contains ("unavailable".data)) :=
  (c10_availability TmdbArg.none ("US".data) [8] ["unavailable".data]
      [("watch".data, Json.obj [])] Option.none).2.2.2.2.2.1
    (by simp) (by simp) (by decide) (by decide)

theorem runTrackedAux_yields_length (total : Nat) (files : List TFile) :
    ∀ (db : List Movie) (i : Nat) results,
      (runTrackedAux total db files i results).2.2.length = files.length + 1 := by
  induction files with
  | nil => intro db i results; rfl
  | cons f rest ih =>
    intro db i results
    cases hp : f.parsed with
    | none => simp [runTrackedAux, hp, ih]
    | some entries => simp [runTrackedAux, hp, ih]

theorem runTrackedAux_yields_get (total : Nat) (files : List TFile) :
    ∀ (db : List Movie) (i : Nat) results (j : Nat) (g : TFile), files[j]? = some g →
      ∃ mt, (runTrackedAux total db files i results).2.2[j]? =
          some (YieldItem.progress (pathStem g.filename) (i + j + 1) total mt) ∧
        (g.parsed = none → mt = 0) := by
  induction files with
  | nil => intro db i results j g hg; simp at hg
  | cons f rest ih =>
    intro db i results j g hg
    cases j with
    | zero =>
      simp only [List.getElem?_cons_zero, Option.some.injEq] at hg
      subst hg
      cases hp : f.parsed with
      | none => exact ⟨0, by simp [runTrackedAux, hp], fun _ => rfl⟩
      | some entries =>
        refine ⟨(process_tracked_list (filename_to_column_name f.filename) db entries).2.1,
          by simp [runTrackedAux, hp], fun h => absurd h (by simp [hp])⟩
    | succ j' =>
      simp only [List.getElem?_cons_succ] at hg
      cases hp : f.parsed with
      | none =>
        obtain ⟨mt, hmt, h0⟩ := ih db (i + 1) _ j' g hg
        refine ⟨mt, ?_, h0⟩
        rw [runTrackedAux]
        simp only [hp]
        rw [List.getElem?_cons_succ]
        convert hmt using 4
        omega
      | some entries =>
        obtain ⟨mt, hmt, h0⟩ :=
          ih (process_tracked_list (filename_to_column_name f.filename) db entries).1 (i + 1) _ j' g hg
        refine ⟨mt, ?_, h0⟩
        rw [runTrackedAux]
        simp only [hp]
        rw [List.getElem?_cons_succ]
        convert hmt using 4
        omega

theorem runTrackedAux_yields_last (total : Nat) (files : List TFile) :
    ∀ (db : List Movie) (i : Nat) results,
      (runTrackedAux total db files i results).2.2[files.length]? =
        some (YieldItem.complete (runTrackedAux total db files i results).2.1) := by
  induction files with
  | nil => intro db i results; rfl
  | cons f rest ih =>
    intro db i results
    cases hp : f.parsed with
    | none => simpa [runTrackedAux, hp] using ih db (i + 1) _
    | some entries => simpa [runTrackedAux, hp] using ih _ (i + 1) _

theorem dictSet_self_mem (k : List Char) (v : TLResult) (d : List (List Char × TLResult)) :
    (k, v) ∈ dictSet k v d := by
  unfold dictSet
  split
  · rename_i hany
    obtain ⟨p, hp, hpk⟩ := List.any_eq_true.mp hany
    exact List.mem_map.mpr ⟨p, hp, by simp [hpk]⟩
  · exact List.mem_append_right _ (by simp)

theorem dictSet_mem_preserve (k : List Char) (v : TLResult) (d : List (List Char × TLResult))
    (p : List Char × TLResult) (hne : p.1 ≠ k) (hp : p ∈ d) : p ∈ dictSet k v d := by
  unfold dictSet
  split
  · exact List.mem_map.mpr ⟨p, hp, by simp [hne]⟩
  · exact List.mem_append_left _ hp

theorem runTrackedAux_results_preserve (total : Nat) (files : List TFile) :
    ∀ (db : List Movie) (i : Nat) results (p : List Char × TLResult), p ∈ results →
      (∀ g ∈ files, pathStem g.filename ≠ p.1) →
      p ∈ (runTrackedAux total db files i results).2.1 := by
  induction files with
  | nil => intro db i results p hp _; exact hp
  | cons f rest ih =>
    intro db i results p hp hstems
    have hne : p.1 ≠ pathStem f.filename :=
      fun h => hstems f (List.mem_cons_self f rest) h.symm
    cases hpar : f.parsed with
    | none =>
      rw [runTrackedAux]
      simp only [hpar]
      exact ih db (i + 1) _ p (dictSet_mem_preserve _ _ _ p hne hp)
        (fun g hg => hstems g (List.mem_cons_of_mem f hg))
    | some entries =>
      rw [runTrackedAux]
      simp only [hpar]
      exact ih _ (i + 1) _ p (dictSet_mem_preserve _ _ _ p hne hp)
        (fun g hg => hstems g (List.mem_cons_of_mem f hg))

theorem runTrackedAux_error_result (total : Nat) (files : List TFile) :
    ∀ (db : List Movie) (i : Nat) results (j : Nat) (f : TFile),
      files[j]? = some f → f.parsed = none →
      ((files.map (fun g => pathStem g.filename)).Pairwise (· ≠ ·)) →
      (pathStem f.filename, (⟨0, 0, 0, true⟩ : TLResult)) ∈
        (runTrackedAux total db files i results).2.1 := by
  induction files with
  | nil => intro db i results j f hj _ _; simp at hj
  | cons g rest ih =>
    intro db i results j f hj herr hpw
    rw [List.map_cons, List.pairwise_cons] at hpw
    cases j with
    | zero =>
      simp only [List.getElem?_cons_zero, Option.some.injEq] at hj
      subst hj
      rw [runTrackedAux]
      simp only [herr]
      refine runTrackedAux_results_preserve total rest db (i + 1) _ _
        (dictSet_self_mem _ _ _) ?_
      intro g' hg' h
      exact hpw.1 (pathStem g'.filename) (List.mem_map_of_mem _ hg') h.symm
    | succ j' =>
      simp only [List.getElem?_cons_succ] at hj
      cases hpar : g.parsed with
      | none =>
        rw [runTrackedAux]
        simp only [hpar]
        exact ih db (i + 1) _ j' f hj herr hpw.2
      | some entries =>
        rw [runTrackedAux]
        simp only [hpar]
        exact ih _ (i + 1) _ j' f hj herr hpw.2

/-- C8: a tracked list whose processing raises does not abort the run:
`process_all_tracked_lists` records an error result with zero matches for it,
still yields a progress update for it (and one for every other list), and
yields the final complete result after all lists. -/
theorem c8_error_isolation (db : List Movie) (dir : List TFile) (i : Nat) (f : TFile)
    (hstems : (dir.map (fun g => pathStem g.filename)).Pairwise (· ≠ ·))
    (hi : dir[i]? = some f) (herr : f.parsed = none) :
    (process_all_tracked_lists db dir).2.2.length = dir.length + 1 ∧
    (process_all_tracked_lists db dir).2.2[i]? =
      some (YieldItem.progress (pathStem f.filename) (i + 1) dir.length 0) ∧
    (∀ j g, dir[j]? = some g → ∃ mt, (process_all_tracked_lists db dir).2.2[j]? =
      some (YieldItem.progress (pathStem g.filename) (j + 1) dir.length mt)) ∧
    (process_all_tracked_lists db dir).2.2[dir.length]? =
      some (YieldItem.complete (process_all_tracked_lists db dir).2.1) ∧
    (pathStem f.filename, (⟨0, 0, 0, true⟩ : TLResult)) ∈ (process_all_tracked_lists db dir).2.1 := by
  rw [process_all_tracked_lists]
  refine ⟨runTrackedAux_yields_length _ _ _ _ _, ?_, ?_, runTrackedAux_yields_last _ _ _ _ _,
    runTrackedAux_error_result _ _ _ _ _ i f hi herr hstems⟩
  · obtain ⟨mt, hmt, h0⟩ := runTrackedAux_yields_get dir.length dir _ 0 [] i f hi
    rw [h0 herr] at hmt
    simpa using hmt
  · intro j g hg
    obtain ⟨mt, hmt, _⟩ := runTrackedAux_yields_get dir.length dir _ 0 [] j g hg
    exact ⟨mt, by simpa using hmt⟩

/-- C8 witness: a run over three lists where the middle one raises. -/
theorem c8_witness :
    (process_all_tracked_lists [cexMovieC1] [cexFileC1a, cexFileC8, cexFileC1b]).2.2[1]? =
      some (YieldItem.progress (pathStem cexFileC8.filename) 2 3 0) ∧
    (pathStem cexFileC8.filename, (⟨0, 0, 0, true⟩ : TLResult)) ∈
      (process_all_tracked_lists [cexMovieC1] [cexFileC1a, cexFileC8, cexFileC1b]).2.1 :=
  ⟨(c8_error_isolation [cexMovieC1] [cexFileC1a, cexFileC8, cexFileC1b] 1 cexFileC8
      (by decide) (by decide) (by decide)).2.1,
   (c8_error_isolation [cexMovieC1] [cexFileC1a, cexFileC8, cexFileC1b] 1 cexFileC8
      (by decide) (by decide) (by decide)).2.2.2.2⟩

theorem checkListStep_fields (u : Option (List Char)) (mv : Movie)
    (p : List Char × List TLEntry) :
    (checkListStep u mv p).id = mv.id ∧ (checkListStep u mv p).title = mv.title ∧
    (checkListStep u mv p).year = mv.year ∧
    (checkListStep u mv p).letterboxd_uri = mv.letterboxd_uri := by
  unfold checkListStep
  dsimp only
  split <;> exact ⟨rfl, rfl, rfl, rfl⟩

theorem foldl_checkListStep_fields (u : Option (List Char))
    (tls : List (List Char × List TLEntry)) : ∀ mv : Movie,
    ((tls.foldl (checkListStep u) mv).id = mv.id ∧
     (tls.foldl (checkListStep u) mv).title = mv.title ∧
     (tls.foldl (checkListStep u) mv).year = mv.year ∧
     (tls.foldl (checkListStep u) mv).letterboxd_uri = mv.letterboxd_uri) := by
  induction tls with
  | nil => intro mv; exact ⟨rfl, rfl, rfl, rfl⟩
  | cons p rest ih =>
    intro mv
    rw [List.foldl_cons]
    obtain ⟨h1, h2, h3, h4⟩ := ih (checkListStep u mv p)
    obtain ⟨g1, g2, g3, g4⟩ := checkListStep_fields u mv p
    exact ⟨h1.trans g1, h2.trans g2, h3.trans g3, h4.trans g4⟩

theorem check_movie_in_tracked_lists_fields (m : Movie)
    (tls : List (List Char × List TLEntry)) :
    (check_movie_in_tracked_lists m tls).id = m.id ∧
    (check_movie_in_tracked_lists m tls).title = m.title ∧
    (check_movie_in_tracked_lists m tls).year = m.year ∧
    (check_movie_in_tracked_lists m tls).letterboxd_uri = m.letterboxd_uri := by
  rw [check_movie_in_tracked_lists]
  exact foldl_checkListStep_fields _ tls m

theorem urisNodup_map (f : Movie → Movie)
    (hf : ∀ m, (f m).letterboxd_uri = m.letterboxd_uri) :
    ∀ l : List Movie, urisNodup (l.map f) = urisNodup l := by
  intro l
  induction l with
  | nil => rfl
  | cons m rest ih =>
    rw [List.map_cons, urisNodup, urisNodup, hf m, ih]
    congr 1
    cases m.letterboxd_uri with
    | none => rfl
    | some u => simp [List.any_map, Function.comp_def, hf]

theorem titleYearNodup_map (f : Movie → Movie)
    (hft : ∀ m, (f m).title = m.title) (hfy : ∀ m, (f m).year = m.year) :
    ∀ l : List Movie, titleYearNodup (l.map f) = titleYearNodup l := by
  intro l
  induction l with
  | nil => rfl
  | cons m rest ih =>
    rw [List.map_cons, titleYearNodup, titleYearNodup, hft m, hfy m, ih]
    congr 1
    cases m.title with
    | none => rfl
    | some t =>
      cases m.year with
      | none => rfl
      | some y => simp [List.any_map, Function.comp_def, hft, hfy]

theorem find?_none_any_false (l : List Movie) (p : Movie → Bool)
    (h : l.find? p = none) : l.any p = false := by
  rw [List.find?_eq_none] at h
  rw [Bool.eq_false_iff]
  intro hany
  obtain ⟨x, hx, hpx⟩ := List.any_eq_true.mp hany
  exact h x hx hpx

theorem urisNodup_append_one (l : List Movie) (m0 : Movie)
    (h : urisNodup l = true)
    (hm : ∀ u, m0.letterboxd_uri = some u →
      l.any (fun m => m.letterboxd_uri == some u) = false) :
    urisNodup (l ++ [m0]) = true := by
  induction l with
  | nil =>
    rw [List.nil_append, urisNodup]
    cases hu : m0.letterboxd_uri <;> simp [urisNodup]
  | cons m rest ih =>
    rw [urisNodup, Bool.and_eq_true] at h
    rw [List.cons_append, urisNodup, Bool.and_eq_true]
    refine ⟨?_, ih h.2 (fun u hu => ?_)⟩
    · cases hmu : m.letterboxd_uri with
      | none => rfl
      | some u =>
        rw [hmu] at h
        dsimp only at h ⊢
        rw [List.any_append, Bool.not_or, Bool.and_eq_true]
        refine ⟨h.1, ?_⟩
        simp only [List.any_cons, List.any_nil, Bool.or_false, Bool.not_eq_true']
        rw [Bool.eq_false_iff]
        intro hb
        rw [beq_iff_eq] at hb
        have h2 := hm u hb
        simp [List.any_cons, hmu] at h2
    · have h2 := hm u hu
      rw [List.any_cons, Bool.or_eq_false_iff] at h2
      exact h2.2

theorem titleYearNodup_append_one (l : List Movie) (m0 : Movie)
    (h : titleYearNodup l = true)
    (hm : ∀ t y, m0.title = some t → m0.year = some y →
      l.any (fun m => (m.title == some t) && (m.year == some y)) = false) :
    titleYearNodup (l ++ [m0]) = true := by
  induction l with
  | nil =>
    rw [List.nil_append, titleYearNodup]
    cases m0.title <;> cases m0.year <;> simp [titleYearNodup]
  | cons m rest ih =>
    rw [titleYearNodup, Bool.and_eq_true] at h
    rw [List.cons_append, titleYearNodup, Bool.and_eq_true]
    refine ⟨?_, ih h.2 (fun t y ht hy => ?_)⟩
    · cases hmt : m.title with
      | none => rfl
      | some t =>
        cases hmy : m.year with
        | none => rfl
        | some y =>
          rw [hmt, hmy] at h
          dsimp only at h ⊢
          rw [List.any_append, Bool.not_or, Bool.and_eq_true]
          refine ⟨h.1, ?_⟩
          simp only [List.any_cons, List.any_nil, Bool.or_false, Bool.not_eq_true']
          rw [Bool.eq_false_iff]
          intro hb
          rw [Bool.and_eq_true, beq_iff_eq, beq_iff_eq] at hb
          have h2 := hm t y hb.1 hb.2
          simp [List.any_cons, hmt, hmy] at h2
    · have h2 := hm t y ht hy
      rw [List.any_cons, Bool.or_eq_false_iff] at h2
      exact h2.2

theorem process_csv_row_nodup (enrich : WLEntry → Option Enriched)
    (tls : List (List Char × List TLEntry)) (s : CsvState) (row : WLEntry)
    (hu : urisNodup s.movies = true) (ht : titleYearNodup s.movies = true) :
    urisNodup (process_csv_row enrich tls s row).movies = true ∧
    titleYearNodup (process_csv_row enrich tls s row).movies = true := by
  rw [process_csv_row]
  have hskip : ∀ ex : Movie,
      urisNodup (s.movies.map (fun m =>
        if m.id = ex.id then check_movie_in_tracked_lists m tls else m)) = true ∧
      titleYearNodup (s.movies.map (fun m =>
        if m.id = ex.id then check_movie_in_tracked_lists m tls else m)) = true := by
    intro ex
    constructor
    · rw [urisNodup_map]
      · exact hu
      · intro m
        by_cases h : m.id = ex.id
        · simp only [h, if_true]
          exact (check_movie_in_tracked_lists_fields m tls).2.2.2
        · simp [h]
    · rw [titleYearNodup_map]
      · exact ht
      · intro m
        by_cases h : m.id = ex.id
        · simp only [h, if_true]
          exact (check_movie_in_tracked_lists_fields m tls).2.1
        · simp [h]
      · intro m
        by_cases h : m.id = ex.id
        · simp only [h, if_true]
          exact (check_movie_in_tracked_lists_fields m tls).2.2.1
        · simp [h]
  cases hf1 : s.movies.find? (fun m => m.letterboxd_uri == some row.letterboxd_uri) with
  | some ex => exact hskip ex
  | none =>
    cases hf2 : s.movies.find? (fun m => (m.title == some row.name) && (m.year == some row.year)) with
    | some ex => exact hskip ex
    | none =>
      dsimp only
      have hfields := check_movie_in_tracked_lists_fields
        (newMovieFromRow s.nextId row (enrich row)) tls
      constructor
      · refine urisNodup_append_one _ _ hu (fun u hmu => ?_)
        have : u = row.letterboxd_uri := by
          rw [hfields.2.2.2] at hmu
          exact (Option.some.injEq _ _ ▸ hmu.symm : _)
        subst this
        exact find?_none_any_false _ _ hf1
      · refine titleYearNodup_append_one _ _ ht (fun t y hmt hmy => ?_)
        have ht' : t = row.name := by
          rw [hfields.2.1] at hmt
          exact (Option.some.injEq _ _ ▸ hmt.symm : _)
        have hy' : y = row.year := by
          rw [hfields.2.2.1] at hmy
          exact (Option.some.injEq _ _ ▸ hmy.symm : _)
        subst ht'; subst hy'
        exact find?_none_any_false _ _ hf2

theorem process_csv_rows_nodup (enrich : WLEntry → Option Enriched)
    (tls : List (List Char × List TLEntry)) :
    ∀ (rows : List WLEntry) (s : CsvState), urisNodup s.movies = true →
      titleYearNodup s.movies = true →
      urisNodup (process_csv_rows enrich tls s rows).movies = true ∧
      titleYearNodup (process_csv_rows enrich tls s rows).movies = true := by
  intro rows
  induction rows with
  | nil => intro s hu ht; exact ⟨hu, ht⟩
  | cons r rest ih =>
    intro s hu ht
    rw [process_csv_rows]
    obtain ⟨hu', ht'⟩ := process_csv_row_nodup enrich tls s r hu ht
    exact ih _ hu' ht'

/-- C3: `process_csv_stream` inserts a new Movie row for a CSV row exactly
when no stored movie has the same `letterboxd_uri` and none has the same
title and year (otherwise the row is counted as skipped and no row is
created), and consequently the run preserves the absence of duplicate URIs
and duplicate title+year pairs among the stored movies. -/
theorem c3_ingest_dedup (enrich : WLEntry → Option Enriched)
    (tls : List (List Char × List TLEntry)) (s : CsvState) (row : WLEntry)
    (rows : List WLEntry) :
    ((s.movies.any (fun m => m.letterboxd_uri == some row.letterboxd_uri) ||
      s.movies.any (fun m => (m.title == some row.name) && (m.year == some row.year))) = false →
      (process_csv_row enrich tls s row).movies =
        s.movies ++ [check_movie_in_tracked_lists (newMovieFromRow s.nextId row (enrich row)) tls] ∧
      (process_csv_row enrich tls s row).processed = s.processed + 1 ∧
      (process_csv_row enrich tls s row).skipped = s.skipped) ∧
    ((s.movies.any (fun m => m.letterboxd_uri == some row.letterboxd_uri) ||
      s.movies.any (fun m => (m.title == some row.name) && (m.year == some row.year))) = true →
      (process_csv_row enrich tls s row).movies.length = s.movies.length ∧
      (process_csv_row enrich tls s row).skipped = s.skipped + 1 ∧
      (process_csv_row enrich tls s row).processed = s.processed) ∧
    (urisNodup s.movies = true → titleYearNodup s.movies = true →
      urisNodup (process_csv_rows enrich tls s rows).movies = true ∧
      titleYearNodup (process_csv_rows enrich tls s rows).movies = true) := by
  refine ⟨?_, ?_, process_csv_rows_nodup enrich tls rows s⟩
  · intro hno
    rw [Bool.or_eq_false_iff] at hno
    have hf1 : s.movies.find? (fun m => m.letterboxd_uri == some row.letterboxd_uri) = none := by
      rw [List.find?_eq_none]
      intro x hx hpx
      have hany : s.movies.any (fun m => m.letterboxd_uri == some row.letterboxd_uri)
          = true := List.any_eq_true.mpr ⟨x, hx, hpx⟩
      rw [hno.1] at hany
      exact absurd hany (by simp)
    have hf2 : s.movies.find? (fun m => (m.title == some row.name) && (m.year == some row.year)) = none := by
      rw [List.find?_eq_none]
      intro x hx hpx
      have hany : s.movies.any
          (fun m => (m.title == some row.name) && (m.year == some row.year))
          = true := List.any_eq_true.mpr ⟨x, hx, hpx⟩
      rw [hno.2] at hany
      exact absurd hany (by simp)
    rw [process_csv_row, hf1, hf2]
    exact ⟨rfl, rfl, rfl⟩
  · intro hyes
    rw [process_csv_row]
    rcases Bool.or_eq_true_iff.mp hyes with h | h
    · obtain ⟨x, hx, hpx⟩ := List.any_eq_true.mp h
      have hsome : (s.movies.find?
          (fun m => m.letterboxd_uri == some row.letterboxd_uri)).isSome = true :=
        List.find?_isSome.mpr ⟨x, hx, hpx⟩
      obtain ⟨ex, hex⟩ := Option.isSome_iff_exists.mp hsome
      rw [hex]
      exact ⟨by simp, rfl, rfl⟩
    · cases hf1 : s.movies.find? (fun m => m.letterboxd_uri == some row.letterboxd_uri) with
      | some ex => exact ⟨by simp, rfl, rfl⟩
      | none =>
        obtain ⟨x, hx, hpx⟩ := List.any_eq_true.mp h
        have hsome : (s.movies.find?
            (fun m => (m.title == some row.name) && (m.year == some row.year))).isSome
            = true := List.find?_isSome.mpr ⟨x, hx, hpx⟩
        obtain ⟨ex, hex⟩ := Option.isSome_iff_exists.mp hsome
        rw [hex]
        exact ⟨by simp, rfl, rfl⟩

/-- C3 witness: ingesting two fresh rows and then a duplicate of the first
into an empty table. -/
theorem c3_witness :
    (([] : List Movie).any (fun m => m.letterboxd_uri == some ("boxd.it/a".data)) ||
      ([] : List Movie).any (fun m =>
        (m.title == some ("A".data)) && (m.year == some (1999 : Int)))) = false ∧
    (process_csv_row (fun _ => none) [] ⟨[], 1, 0, 0⟩ ⟨"A".data, 1999, "boxd.it/a".data⟩).movies =
      [] ++ [check_movie_in_tracked_lists
        (newMovieFromRow 1 ⟨"A".data, 1999, "boxd.it/a".data⟩ none) []] ∧
    urisNodup (process_csv_rows (fun _ => none) [] ⟨[], 1, 0, 0⟩
      [⟨"A".data, 1999, "boxd.it/a".data⟩, ⟨"B".data, 2001, "boxd.it/b".data⟩,
       ⟨"A".data, 1999, "boxd.it/a".data⟩]).movies = true :=
  ⟨by decide,
   ((c3_ingest_dedup (fun _ => none) [] ⟨[], 1, 0, 0⟩ ⟨"A".data, 1999, "boxd.it/a".data⟩ []).1
      (by decide)).1,
   ((c3_ingest_dedup (fun _ => none) [] ⟨[], 1, 0, 0⟩ ⟨"A".data, 1999, "boxd.it/a".data⟩
      [⟨"A".data, 1999, "boxd.it/a".data⟩, ⟨"B".data, 2001, "boxd.it/b".data⟩,
       ⟨"A".data, 1999, "boxd.it/a".data⟩]).2.2 (by decide) (by decide)).1⟩

theorem any_comp_map {α β : Type} (f : α → β) (p : β → Bool) :
    ∀ l : List α, (l.map f).any p = l.any (fun a => p (f a)) := by
  intro l
  induction l with
  | nil => rfl
  | cons a t ih => simp [List.any_cons, ih]

theorem urisNodup_of_map_eq : ∀ {l1 l2 : List Movie},
    l1.map (fun m => m.letterboxd_uri) = l2.map (fun m => m.letterboxd_uri) →
    urisNodup l1 = urisNodup l2 := by
  intro l1
  induction l1 with
  | nil =>
    intro l2 h
    rw [List.map_nil] at h
    rw [List.map_eq_nil_iff.mp h.symm]
  | cons m rest ih =>
    intro l2 h
    cases l2 with
    | nil => simp at h
    | cons m2 rest2 =>
      simp only [List.map_cons, List.cons.injEq] at h
      rw [urisNodup, urisNodup, ih h.2]
      congr 1
      rw [h.1]
      cases m2.letterboxd_uri with
      | none => rfl
      | some u =>
        dsimp only
        congr 1
        have e1 := any_comp_map (fun m : Movie => m.letterboxd_uri) (fun o => o == some u) rest
        have e2 := any_comp_map (fun m : Movie => m.letterboxd_uri) (fun o => o == some u) rest2
        rw [← e1, ← e2, h.2]

/-- C6 counterexample: exporting and re-importing a movie with NULL genres
yields a movie whose genres column is the empty list, so the round trip does
not agree on genres as the claim states (the movie satisfies the claim's
hypothesis: its `letterboxd_uri` is non-empty). -/
theorem c6_counterexample :
    ((import_profile_from_json [cexMovieC6] 2
        (export_profile_to_json [cexMovieC6])).1.1.map (fun m => m.genres)) = [some []] ∧
    cexMovieC6.genres = none ∧
    ((import_profile_from_json [cexMovieC6] 2
        (export_profile_to_json [cexMovieC6])).1.1.map (fun m => m.notes)) = [none] ∧
    cexMovieC6.notes = some [] := by
  refine ⟨?_, rfl, ?_, rfl⟩ <;> rfl

theorem importBuild_export (db : List Movie) :
    ∀ nid : Nat, (∀ m ∈ db, ∃ u, m.letterboxd_uri = some u ∧ u ≠ []) →
      (importBuild nid (export_profile_to_json db)).2.2.2 = 0 ∧
      (importBuild nid (export_profile_to_json db)).2.2.1 = db.length ∧
      (importBuild nid (export_profile_to_json db)).1.length = db.length ∧
      (importBuild nid (export_profile_to_json db)).1.map (fun m => m.letterboxd_uri) =
        db.map (fun m => m.letterboxd_uri) ∧
      ∀ (k : Nat) (m : Movie), db[k]? = some m → ∃ m' : Movie,
        (importBuild nid (export_profile_to_json db)).1[k]? = some m' ∧
        m'.title = m.title ∧ m'.year = m.year ∧
        m'.letterboxd_uri = m.letterboxd_uri ∧ m'.director = m.director ∧
        m'.country = m.country ∧ m'.runtime = m.runtime ∧
        m'.genres = some (m.genres.getD []) ∧ m'.tmdb_id = m.tmdb_id ∧
        m'.is_favorite = m.is_favorite ∧
        m'.seen_before = some (m.seen_before.getD false) ∧
        m'.notes = m.notes.bind (fun n => if n = [] then none else some n) := by
  induction db with
  | nil =>
    intro nid _
    refine ⟨rfl, rfl, rfl, rfl, ?_⟩
    intro k m hm
    simp at hm
  | cons m rest ih =>
    intro nid hall
    obtain ⟨u, hu, hune⟩ := hall m (List.mem_cons_self m rest)
    have hexp : export_profile_to_json (m :: rest) =
        exportMovie m :: export_profile_to_json rest := rfl
    have himp : importMovie nid (exportMovie m) = some
        { id := nid
          title := m.title
          year := m.year
          letterboxd_uri := some u
          director := m.director
          country := m.country
          runtime := m.runtime
          genres := some (match m.genres with | some g => g | none => [])
          tmdb_id := m.tmdb_id
          tmdb_data := match m.tmdb_data with
                       | some d => if pyTruthy d then some d else none
                       | none => none
          is_favorite := m.is_favorite
          seen_before := some (match m.seen_before with | some b => b | none => false)
          notes := match m.notes with
                   | some n => if n = [] then none else some n
                   | none => none
          flags := [] } := by
      rw [importMovie]
      simp only [exportMovie, hu]
      rw [if_neg hune]
    obtain ⟨h0, h1, h2, h3, h4⟩ := ih (nid + 1) (fun x hx => hall x (List.mem_cons_of_mem m hx))
    rw [hexp, importBuild, himp]
    dsimp only
    refine ⟨h0, ?_, ?_, ?_, ?_⟩
    · simpa using h1
    · simpa using h2
    · simp only [List.map_cons, hu, h3]
    · intro k mm hk
      cases k with
      | zero =>
        simp only [List.getElem?_cons_zero, Option.some.injEq] at hk
        subst hk
        refine ⟨_, List.getElem?_cons_zero, rfl, rfl, by simp [hu], rfl, rfl, rfl, ?_, rfl, rfl, ?_, ?_⟩
        · cases m.genres <;> rfl
        · cases m.seen_before <;> rfl
        · cases m.notes <;> rfl
      | succ k' =>
        simp only [List.getElem?_cons_succ] at hk ⊢
        exact h4 k' mm hk

/-- C6 (amended): for a database state where every movie has a non-empty
`letterboxd_uri` (and, as the UNIQUE constraint guarantees, no duplicate
URIs), importing the full (`include_tmdb_data=True`) export reports zero
failed movies, the commit succeeds, and the imported movies are in
positional bijection with the originals, agreeing exactly on title, year,
letterboxd_uri, director, country, runtime, tmdb_id and is_favorite, with
NULL genres becoming the empty list, NULL seen_before becoming False and
empty-string notes becoming NULL (the three coercions
`export_profile_to_json` applies). -/
theorem c6_amended_roundtrip (db : List Movie) (nextId : Nat)
    (huri : ∀ m ∈ db, ∃ u, m.letterboxd_uri = some u ∧ u ≠ [])
    (hnodup : urisNodup db = true) :
    (import_profile_from_json db nextId (export_profile_to_json db)).2.2.2 = true ∧
    (import_profile_from_json db nextId (export_profile_to_json db)).2.2.1 = 0 ∧
    (import_profile_from_json db nextId (export_profile_to_json db)).2.1 = db.length ∧
    (import_profile_from_json db nextId (export_profile_to_json db)).1.1.length = db.length ∧
    ∀ (k : Nat) (m : Movie), db[k]? = some m → ∃ m' : Movie,
      (import_profile_from_json db nextId (export_profile_to_json db)).1.1[k]? = some m' ∧
      m'.title = m.title ∧ m'.year = m.year ∧
      m'.letterboxd_uri = m.letterboxd_uri ∧ m'.director = m.director ∧
      m'.country = m.country ∧ m'.runtime = m.runtime ∧
      m'.genres = some (m.genres.getD []) ∧ m'.tmdb_id = m.tmdb_id ∧
      m'.is_favorite = m.is_favorite ∧
      m'.seen_before = some (m.seen_before.getD false) ∧
      m'.notes = m.notes.bind (fun n => if n = [] then none else some n) := by
  obtain ⟨h0, h1, h2, h3, h4⟩ := importBuild_export db nextId huri
  have hok : urisNodup (importBuild nextId (export_profile_to_json db)).1 = true := by
    rw [urisNodup_of_map_eq h3]
    exact hnodup
  rw [import_profile_from_json]
  rw [if_pos hok]
  exact ⟨rfl, h0, h1, h2, h4⟩

/-- C6 witness: the amended round trip at a one-movie database. -/
theorem c6_witness :
    (∀ m ∈ [cexMovieC6], ∃ u, m.letterboxd_uri = some u ∧ u ≠ []) ∧
    (import_profile_from_json [cexMovieC6] 2
        (export_profile_to_json [cexMovieC6])).2.2.2 = true ∧
    (import_profile_from_json [cexMovieC6] 2
        (export_profile_to_json [cexMovieC6])).2.2.1 = 0 := by
  have h : ∀ m ∈ [cexMovieC6], ∃ u, m.letterboxd_uri = some u ∧ u ≠ [] := by
    intro m hm
    rw [List.mem_singleton] at hm
    subst hm
    exact ⟨"uu".data, rfl, by decide⟩
  obtain ⟨hok, hfail, _⟩ :=
    c6_amended_roundtrip [cexMovieC6] 2 h (by decide)
  exact ⟨h, hok, hfail⟩

theorem any_filter_false (l : List Movie) (p q : Movie → Bool) (h : l.any q = false) :
    (l.filter p).any q = false := by
  rw [Bool.eq_false_iff] at h ⊢
  intro hc
  obtain ⟨x, hx, hq⟩ := List.any_eq_true.mp hc
  exact h (List.any_eq_true.mpr ⟨x, (List.mem_filter.mp hx).1, hq⟩)

theorem urisNodup_filter (p : Movie → Bool) :
    ∀ l : List Movie, urisNodup l = true → urisNodup (l.filter p) = true := by
  intro l
  induction l with
  | nil => intro _; rfl
  | cons m rest ih =>
    intro h
    rw [urisNodup, Bool.and_eq_true] at h
    rw [List.filter_cons]
    split
    · rw [urisNodup, Bool.and_eq_true]
      refine ⟨?_, ih h.2⟩
      cases hmu : m.letterboxd_uri with
      | none => rfl
      | some u =>
        rw [hmu] at h
        dsimp only at h ⊢
        rw [Bool.not_eq_true'] at h ⊢
        exact any_filter_false rest p _ h.1
    · exact ih h.2

theorem contains_filter_false (l : List (List Char)) (p : List Char → Bool) (n : List Char)
    (h : l.contains n = false) : (l.filter p).contains n = false := by
  rw [List.contains_eq_any_beq] at h ⊢
  rw [Bool.eq_false_iff] at h ⊢
  intro hc
  obtain ⟨x, hx, hq⟩ := List.any_eq_true.mp hc
  exact h (List.any_eq_true.mpr ⟨x, (List.mem_filter.mp hx).1, hq⟩)

theorem namesNodup_filter (p : List Char → Bool) :
    ∀ l : List (List Char), namesNodup l = true → namesNodup (l.filter p) = true := by
  intro l
  induction l with
  | nil => intro _; rfl
  | cons n rest ih =>
    intro h
    rw [namesNodup, Bool.and_eq_true] at h
    rw [List.filter_cons]
    split
    · rw [namesNodup, Bool.and_eq_true]
      refine ⟨?_, ih h.2⟩
      rw [Bool.not_eq_true'] at h ⊢
      exact contains_filter_false rest p n h.1
    · exact ih h.2

theorem namesNodup_append_one (l : List (List Char)) (n : List Char)
    (hl : namesNodup l = true) (hn : l.contains n = false) :
    namesNodup (l ++ [n]) = true := by
  induction l with
  | nil => simp [namesNodup]
  | cons m rest ih =>
    rw [namesNodup, Bool.and_eq_true] at hl
    rw [List.contains_cons, Bool.or_eq_false_iff] at hn
    rw [List.cons_append, namesNodup, Bool.and_eq_true]
    refine ⟨?_, ih hl.2 hn.2⟩
    rw [Bool.not_eq_true']
    rw [List.contains_eq_any_beq, List.any_append]
    rw [Bool.or_eq_false_iff]
    constructor
    · have h1 : rest.contains m = false := by simpa using hl.1
      rw [List.contains_eq_any_beq] at h1
      exact h1
    · simp only [List.any_cons, List.any_nil, Bool.or_false]
      rw [Bool.eq_false_iff]
      intro hc
      rw [beq_iff_eq] at hc
      rw [hc] at hn
      simp at hn

theorem setFlagById_mfields (col : List Char) (mid : Nat) (db : List Movie) :
    (setFlagById col mid db).map mfields = db.map mfields := by
  rw [setFlagById, List.map_map]
  refine List.map_congr_left (fun m _ => ?_)
  by_cases h : m.id = mid <;> simp [Function.comp, h, mfields]

theorem process_tracked_list_mfields (col : List Char) :
    ∀ (entries : List TLEntry) (db : List Movie),
      ((process_tracked_list col db entries).1).map mfields = db.map mfields := by
  intro entries
  induction entries with
  | nil => intro db; rfl
  | cons e rest ih =>
    intro db
    rw [process_tracked_list]
    cases match_list_entry db e with
    | some m =>
      dsimp only
      rw [ih (setFlagById col m.id db), setFlagById_mfields]
    | none => exact ih db

theorem runTrackedAux_mfields (total : Nat) :
    ∀ (files : List TFile) (db : List Movie) (i : Nat) results,
      ((runTrackedAux total db files i results).1).map mfields = db.map mfields := by
  intro files
  induction files with
  | nil => intro db i results; rfl
  | cons f rest ih =>
    intro db i results
    rw [runTrackedAux]
    cases f.parsed with
    | none => exact ih db (i + 1) _
    | some entries =>
      dsimp only
      rw [ih _ (i + 1) _, process_tracked_list_mfields]

theorem resetColumns_mfields (db : List Movie) (cols : List (List Char)) :
    (resetColumns db cols).map mfields = db.map mfields := by
  rw [resetColumns, List.map_map]
  exact List.map_congr_left (fun m _ => rfl)

theorem process_all_tracked_lists_mfields (db : List Movie) (dir : List TFile) :
    ((process_all_tracked_lists db dir).1).map mfields = db.map mfields := by
  rw [process_all_tracked_lists, runTrackedAux_mfields, resetColumns_mfields]

theorem uri_map_of_mfields_map {l1 l2 : List Movie}
    (h : l1.map mfields = l2.map mfields) :
    l1.map (fun m => m.letterboxd_uri) = l2.map (fun m => m.letterboxd_uri) := by
  have e1 : l1.map (fun m => m.letterboxd_uri) =
      (l1.map mfields).map (fun t => t.2.2.2) := by
    rw [List.map_map]
    exact List.map_congr_left (fun m _ => rfl)
  have e2 : l2.map (fun m => m.letterboxd_uri) =
      (l2.map mfields).map (fun t => t.2.2.2) := by
    rw [List.map_map]
    exact List.map_congr_left (fun m _ => rfl)
  rw [e1, e2, h]

theorem process_csv_row_uri_nodup (enrich : WLEntry → Option Enriched)
    (tls : List (List Char × List TLEntry)) (s : CsvState) (row : WLEntry)
    (hu : urisNodup s.movies = true) :
    urisNodup (process_csv_row enrich tls s row).movies = true := by
  rw [process_csv_row]
  have hskip : ∀ ex : Movie,
      urisNodup (s.movies.map (fun m =>
        if m.id = ex.id then check_movie_in_tracked_lists m tls else m)) = true := by
    intro ex
    rw [urisNodup_map]
    · exact hu
    · intro m
      by_cases h : m.id = ex.id
      · simp only [h, if_true]
        exact (check_movie_in_tracked_lists_fields m tls).2.2.2
      · simp [h]
  cases hf1 : s.movies.find? (fun m => m.letterboxd_uri == some row.letterboxd_uri) with
  | some ex => exact hskip ex
  | none =>
    cases hf2 : s.movies.find? (fun m => (m.title == some row.name) && (m.year == some row.year)) with
    | some ex => exact hskip ex
    | none =>
      dsimp only
      refine urisNodup_append_one _ _ hu (fun u hmu => ?_)
      have hfields := check_movie_in_tracked_lists_fields
        (newMovieFromRow s.nextId row (enrich row)) tls
      have : u = row.letterboxd_uri := by
        rw [hfields.2.2.2] at hmu
        exact (Option.some.injEq _ _ ▸ hmu.symm : _)
      subst this
      exact find?_none_any_false _ _ hf1

theorem process_csv_rows_uri_nodup (enrich : WLEntry → Option Enriched)
    (tls : List (List Char × List TLEntry)) :
    ∀ (rows : List WLEntry) (s : CsvState), urisNodup s.movies = true →
      urisNodup (process_csv_rows enrich tls s rows).movies = true := by
  intro rows
  induction rows with
  | nil => intro s hu; exact hu
  | cons r rest ih =>
    intro s hu
    rw [process_csv_rows]
    exact ih _ (process_csv_row_uri_nodup enrich tls s r hu)

theorem add_movie_uri_nodup (enrich : List Char → Int → Option Enriched)
    (tls : List (List Char × List TLEntry)) (req : AddMovieReq)
    (db : List Movie) (nextId : Nat) (hu : urisNodup db = true) :
    urisNodup (add_movie enrich tls req db nextId).1 = true := by
  rw [add_movie]
  cases req.year with
  | none => exact hu
  | some year =>
    dsimp only
    split
    · exact hu
    · split
      · exact hu
      · split
        · exact hu
        · split
          · exact hu
          · rename_i hany
            refine urisNodup_append_one _ _ hu (fun u hu' => ?_)
            rw [(check_movie_in_tracked_lists_fields _ tls).2.2.2] at hu'
            dsimp only at hu'
            rw [Option.some.injEq] at hu'
            subst hu'
            exact Bool.eq_false_iff.mpr hany

theorem applyOp_preserves (s : DBState) (op : Op)
    (hu : urisNodup s.movies = true) (hd : namesNodup s.directors = true)
    (hc : namesNodup s.countries = true) :
    urisNodup (applyOp s op).movies = true ∧
    namesNodup (applyOp s op).directors = true ∧
    namesNodup (applyOp s op).countries = true := by
  cases op with
  | ingest rows tls enrich =>
    exact ⟨process_csv_rows_uri_nodup enrich tls rows ⟨s.movies, s.nextId, 0, 0⟩ hu, hd, hc⟩
  | addMovie req tls enrich =>
    exact ⟨add_movie_uri_nodup enrich tls req s.movies s.nextId hu, hd, hc⟩
  | importProfile entries =>
    refine ⟨?_, hd, hc⟩
    rw [applyOp, import_profile_from_json]
    dsimp only
    split
    · rename_i hok; exact hok
    · exact hu
  | importStream entries directors countries =>
    rw [applyOp]
    split
    · rename_i hok
      dsimp only
      by_cases hnames : (namesNodup (importNames directors) &&
          namesNodup (importNames countries)) = true
      · rw [if_pos hnames]
        rw [Bool.and_eq_true] at hnames
        exact ⟨hok, hnames.1, hnames.2⟩
      · rw [if_neg hnames]
        exact ⟨hok, rfl, rfl⟩
    · exact ⟨hu, hd, hc⟩
  | deleteMovie mid => exact ⟨urisNodup_filter _ s.movies hu, hd, hc⟩
  | setFavorite mid b =>
    refine ⟨?_, hd, hc⟩
    rw [applyOp, urisNodup_map]
    · exact hu
    · intro m; by_cases h : m.id = mid <;> simp [h]
  | setSeenBefore mid b =>
    refine ⟨?_, hd, hc⟩
    rw [applyOp, urisNodup_map]
    · exact hu
    · intro m; by_cases h : m.id = mid <;> simp [h]
  | setNotes mid n =>
    refine ⟨?_, hd, hc⟩
    rw [applyOp, urisNodup_map]
    · exact hu
    · intro m; by_cases h : m.id = mid <;> simp [h]
  | addFavoriteDirector name =>
    rw [applyOp]
    split
    · exact ⟨hu, hd, hc⟩
    · rename_i hno
      exact ⟨hu, namesNodup_append_one _ _ hd (Bool.eq_false_iff.mpr hno), hc⟩
  | removeFavoriteDirector name =>
    exact ⟨hu, namesNodup_filter _ s.directors hd, hc⟩
  | addSeenCountry name =>
    rw [applyOp]
    split
    · exact ⟨hu, hd, hc⟩
    · rename_i hno
      exact ⟨hu, hd, namesNodup_append_one _ _ hc (Bool.eq_false_iff.mpr hno)⟩
  | removeSeenCountry name =>
    exact ⟨hu, hd, namesNodup_filter _ s.countries hc⟩
  | processTracked dir =>
    refine ⟨?_, hd, hc⟩
    rw [applyOp]
    dsimp only
    rw [urisNodup_of_map_eq (uri_map_of_mfields_map (process_all_tracked_lists_mfields s.movies dir))]
    exact hu
  | clearCache => exact ⟨rfl, hd, hc⟩
  | recache enrich =>
    refine ⟨?_, hd, hc⟩
    rw [applyOp, urisNodup_map]
    · exact hu
    · intro m; cases enrich m <;> simp

theorem foldl_applyOp_preserves (ops : List Op) :
    ∀ s : DBState, urisNodup s.movies = true → namesNodup s.directors = true →
      namesNodup s.countries = true →
      urisNodup (ops.foldl applyOp s).movies = true ∧
      namesNodup (ops.foldl applyOp s).directors = true ∧
      namesNodup (ops.foldl applyOp s).countries = true := by
  induction ops with
  | nil => intro s hu hd hc; exact ⟨hu, hd, hc⟩
  | cons op rest ih =>
    intro s hu hd hc
    rw [List.foldl_cons]
    obtain ⟨hu', hd', hc'⟩ := applyOp_preserves s op hu hd hc
    exact ih _ hu' hd' hc'

/-- C7: uniqueness is an invariant of every modelled API operation: in every
database state reachable from the freshly created per-user tables, no two
movies share a non-NULL `letterboxd_uri`, no two favorite-director rows share
a `director_name`, and no two seen-country rows share a `country_name`.
(Operations whose own checks do not guarantee this — the synthetic URI of
`add_movie` and profile imports — are saved by the UNIQUE constraints, whose
commit-or-rollback semantics `applyOp` models.) -/
theorem c7_uniqueness_invariant (ops : List Op) :
    urisNodup (applyOps ops).movies = true ∧
    namesNodup (applyOps ops).directors = true ∧
    namesNodup (applyOps ops).countries = true :=
  foldl_applyOp_preserves ops {} rfl rfl rfl

/-- C2 counterexample: the claim describes URI matching as exact equality or
equality after normalizing both sides.  For the stored URI
`http://letterboxd.com/y` and the list URI
`https://boxd.it/http://letterboxd.com/y`, neither holds (normalizing the
stored URI gives `y`, normalizing the list URI gives
`http://letterboxd.com/y`), yet `match_movie_by_uri` matches the movie via
its middle step (stored URI equal to the normalized input), because
`normalize_uri` is not idempotent at this input. -/
theorem c2_counterexample :
    (match_movie_by_uri [cexMovieC2] cexUriC2).isSome = true ∧
    specC2UriMatches [cexMovieC2] cexUriC2 = false := by
  constructor <;> decide

/-- C2 (amended): matching a tracked-list entry follows a fixed precedence:
an entry with a truthy `letterboxd_uri` is matched by URI first, and title
plus exact-year matching is attempted only when URI matching yields no
movie; URI matching itself succeeds exactly by exact equality, or by a
stored URI equal to the normalized entry URI, or by equality of the
normalized URIs among the first 5000 stored movies with non-NULL URI; and
an entry matching by neither method updates no movie row and is counted as
unmatched. -/
theorem c2_matching_precedence (db : List Movie) (e : TLEntry) (u : List Char)
    (col : List Char) :
    (e.letterboxd_uri = some u → u ≠ [] → (match_movie_by_uri db u).isSome = true →
      match_list_entry db e = match_movie_by_uri db u) ∧
    ((match e.letterboxd_uri with
      | some u' => u' = [] ∨ (match_movie_by_uri db u').isSome = false
      | none => True) →
      match_list_entry db e =
        (match e.name, e.year with
         | some n, some y =>
           if n ≠ [] && y != 0 then match_movie_by_title_year db n y else none
         | _, _ => none)) ∧
    ((match_movie_by_uri db u).isSome = true ↔
      u ≠ [] ∧ ((∃ m ∈ db, m.letterboxd_uri = some u) ∨
        (normalize_uri u ≠ [] ∧ ((∃ m ∈ db, m.letterboxd_uri = some (normalize_uri u)) ∨
          (∃ m ∈ (db.filter (fun m => m.letterboxd_uri != none)).take 5000,
            ∃ su, m.letterboxd_uri = some su ∧ normalize_uri su = normalize_uri u))))) ∧
    ((match_list_entry db e).isSome = false →
      process_tracked_list col db [e] = (db, 0, 1)) := by
  refine ⟨?_, ?_, ?_, ?_⟩
  · intro he hne hsome
    obtain ⟨m, hm⟩ := Option.isSome_iff_exists.mp hsome
    rw [match_list_entry, he]
    dsimp only
    rw [if_pos hne, hm]
  · intro hfall
    cases he : e.letterboxd_uri with
    | none => rw [match_list_entry, he]
    | some u' =>
      rw [he] at hfall
      rw [match_list_entry, he]
      dsimp only
      rcases hfall with h | h
      · rw [if_neg (by simp [h])]
      · by_cases hne : u' = []
        · rw [if_neg (by simp [hne])]
        · rw [if_pos hne]
          cases hmu : match_movie_by_uri db u' with
          | none => rfl
          | some m => rw [hmu] at h; simp at h
  · by_cases hu0 : u = []
    · subst hu0
      rw [match_movie_by_uri]
      simp
    · rw [match_movie_by_uri, if_neg hu0]
      cases hf1 : db.find? (fun m => m.letterboxd_uri == some u) with
      | some m =>
        have hmem := List.mem_of_find?_eq_some hf1
        have hp := List.find?_some hf1
        rw [beq_iff_eq] at hp
        simp only [Option.isSome_some, true_iff]
        exact ⟨hu0, Or.inl ⟨m, hmem, hp⟩⟩
      | none =>
        have hnone1 : ¬∃ m ∈ db, m.letterboxd_uri = some u := by
          rintro ⟨m, hm, hmu⟩
          exact (List.find?_eq_none.mp hf1 m hm) (by simp [hmu])
        dsimp only
        by_cases hn : normalize_uri u = []
        · rw [if_pos hn]
          refine iff_of_false (by simp) ?_
          rintro ⟨hu', hor⟩
          rcases hor with h2 | h3
          · exact hnone1 h2
          · exact h3.1 hn
        · rw [if_neg hn]
          cases hf2 : db.find? (fun m => m.letterboxd_uri == some (normalize_uri u)) with
          | some m =>
            have hmem := List.mem_of_find?_eq_some hf2
            have hp := List.find?_some hf2
            rw [beq_iff_eq] at hp
            simp only [Option.isSome_some, true_iff]
            exact ⟨hu0, Or.inr ⟨hn, Or.inl ⟨m, hmem, hp⟩⟩⟩
          | none =>
            have hnone2 : ¬∃ m ∈ db, m.letterboxd_uri = some (normalize_uri u) := by
              rintro ⟨m, hm, hmu⟩
              exact (List.find?_eq_none.mp hf2 m hm) (by simp [hmu])
            cases hf3 : ((db.filter (fun m => m.letterboxd_uri != none)).take 5000).find?
                (fun m => match m.letterboxd_uri with
                 | some su => normalize_uri su == normalize_uri u
                 | none => false) with
            | some m =>
              have hmem := List.mem_of_find?_eq_some hf3
              have hp := List.find?_some hf3
              simp only [Option.isSome_some, true_iff]
              refine ⟨hu0, Or.inr ⟨hn, Or.inr ⟨m, hmem, ?_⟩⟩⟩
              cases hmu : m.letterboxd_uri with
              | none => rw [hmu] at hp; simp at hp
              | some su =>
                rw [hmu] at hp
                rw [beq_iff_eq] at hp
                exact ⟨su, rfl, hp⟩
            | none =>
              refine iff_of_false (by simp) ?_
              rintro ⟨hu', hor⟩
              rcases hor with h2 | h3
              · exact hnone1 h2
              · rcases h3.2 with h4 | h5
                · exact hnone2 h4
                · obtain ⟨m, hm, su, hsu, hnsu⟩ := h5
                  have hfind := List.find?_eq_none.mp hf3 m hm
                  rw [hsu] at hfind
                  exact hfind (by simp [hnsu])
  · intro hnone
    rw [process_tracked_list]
    cases hml : match_list_entry db e with
    | some m => rw [hml] at hnone; simp at hnone
    | none => rfl

/-- C2 witness: an entry carrying the URI of a stored movie is matched by
URI, and an entry matching nothing leaves the table unchanged and is
counted as unmatched. -/
theorem c2_witness :
    (cexEntryByUri.letterboxd_uri = some ("u".data) ∧
     "u".data ≠ [] ∧ (match_movie_by_uri [cexMovieC1] ("u".data)).isSome = true ∧
     match_list_entry [cexMovieC1] cexEntryByUri =
       match_movie_by_uri [cexMovieC1] ("u".data)) ∧
    ((match_list_entry [cexMovieC1] cexEntryNoMatch).isSome = false ∧
     process_tracked_list ("is_x".data) [cexMovieC1] [cexEntryNoMatch] =
       ([cexMovieC1], 0, 1)) :=
  ⟨⟨rfl, by decide, by decide,
    (c2_matching_precedence [cexMovieC1] cexEntryByUri ("u".data) ("is_x".data)).1
      rfl (by decide) (by decide)⟩,
   ⟨by decide,
    (c2_matching_precedence [cexMovieC1] cexEntryNoMatch ("u".data) ("is_x".data)).2.2.2
      (by decide)⟩⟩

theorem find?_congr_mfields {l1 l2 : List Movie} (p : Movie → Bool)
    (hp : ∀ m1 m2, mfields m1 = mfields m2 → p m1 = p m2) :
    l1.map mfields = l2.map mfields →
    Option.map mfields (l1.find? p) = Option.map mfields (l2.find? p) := by
  induction l1 generalizing l2 with
  | nil =>
    intro h
    have h2 : l2 = [] := List.map_eq_nil_iff.mp h.symm
    subst h2
    rfl
  | cons m1 t1 ih =>
    intro h
    cases l2 with
    | nil => simp at h
    | cons m2 t2 =>
      simp only [List.map_cons, List.cons.injEq] at h
      rw [List.find?_cons, List.find?_cons, hp m1 m2 h.1]
      cases hpm : p m2 with
      | true => dsimp only; rw [Option.map_some', Option.map_some', h.1]
      | false => dsimp only; exact ih h.2

theorem filter_congr_mfields {l1 l2 : List Movie} (p : Movie → Bool)
    (hp : ∀ m1 m2, mfields m1 = mfields m2 → p m1 = p m2) :
    l1.map mfields = l2.map mfields →
    (l1.filter p).map mfields = (l2.filter p).map mfields := by
  induction l1 generalizing l2 with
  | nil =>
    intro h
    have h2 : l2 = [] := List.map_eq_nil_iff.mp h.symm
    subst h2
    rfl
  | cons m1 t1 ih =>
    intro h
    cases l2 with
    | nil => simp at h
    | cons m2 t2 =>
      simp only [List.map_cons, List.cons.injEq] at h
      rw [List.filter_cons, List.filter_cons, hp m1 m2 h.1]
      by_cases hpm : p m2 = true
      · rw [if_pos hpm, if_pos hpm, List.map_cons, List.map_cons, h.1, ih h.2]
      · rw [if_neg hpm, if_neg hpm]; exact ih h.2

theorem opt_map_mfields_cases {o1 o2 : Option Movie}
    (h : Option.map mfields o1 = Option.map mfields o2) :
    (o1 = none ∧ o2 = none) ∨
    (∃ m1 m2, o1 = some m1 ∧ o2 = some m2 ∧ mfields m1 = mfields m2) := by
  cases o1 with
  | none =>
    cases o2 with
    | none => exact Or.inl ⟨rfl, rfl⟩
    | some m2 => simp at h
  | some m1 =>
    cases o2 with
    | none => simp at h
    | some m2 =>
      rw [Option.map_some', Option.map_some', Option.some.injEq] at h
      exact Or.inr ⟨m1, m2, rfl, rfl, h⟩

theorem uri_proj_of_mfields {m1 m2 : Movie} (h : mfields m1 = mfields m2) :
    m1.letterboxd_uri = m2.letterboxd_uri := congrArg (fun t => t.2.2.2) h

theorem title_proj_of_mfields {m1 m2 : Movie} (h : mfields m1 = mfields m2) :
    m1.title = m2.title := congrArg (fun t => t.2.1) h

theorem year_proj_of_mfields {m1 m2 : Movie} (h : mfields m1 = mfields m2) :
    m1.year = m2.year := congrArg (fun t => t.2.2.1) h

theorem id_proj_of_mfields {m1 m2 : Movie} (h : mfields m1 = mfields m2) :
    m1.id = m2.id := congrArg (fun t => t.1) h

theorem match_movie_by_uri_congr {l1 l2 : List Movie}
    (h : l1.map mfields = l2.map mfields) (u : List Char) :
    Option.map mfields (match_movie_by_uri l1 u) =
      Option.map mfields (match_movie_by_uri l2 u) := by
  rw [match_movie_by_uri, match_movie_by_uri]
  by_cases hu : u = []
  · rw [if_pos hu, if_pos hu]
  · rw [if_neg hu, if_neg hu]
    have h1 := find?_congr_mfields (fun m => m.letterboxd_uri == some u)
      (fun m1 m2 he => by simp only [uri_proj_of_mfields he]) h
    rcases opt_map_mfields_cases h1 with ⟨ha, hb⟩ | ⟨m1, m2, ha, hb, hab⟩
    · rw [ha, hb]
      dsimp only
      by_cases hn : normalize_uri u = []
      · rw [if_pos hn, if_pos hn]
      · rw [if_neg hn, if_neg hn]
        have h2 := find?_congr_mfields (fun m => m.letterboxd_uri == some (normalize_uri u))
          (fun m1 m2 he => by simp only [uri_proj_of_mfields he]) h
        rcases opt_map_mfields_cases h2 with ⟨hc, hd⟩ | ⟨m1, m2, hc, hd, hcd⟩
        · rw [hc, hd]
          have h3 : ((l1.filter (fun m => m.letterboxd_uri != none)).take 5000).map mfields =
              ((l2.filter (fun m => m.letterboxd_uri != none)).take 5000).map mfields := by
            rw [List.map_take, List.map_take]
            rw [filter_congr_mfields (fun m => m.letterboxd_uri != none)
              (fun m1 m2 he => by simp only [uri_proj_of_mfields he]) h]
          exact find?_congr_mfields _
            (fun m1 m2 he => by simp only [uri_proj_of_mfields he]) h3
        · rw [hc, hd]; simp [hcd]
    · rw [ha, hb]; simp [hab]

theorem match_movie_by_title_year_congr {l1 l2 : List Movie}
    (h : l1.map mfields = l2.map mfields) (t : List Char) (y : Int) :
    Option.map mfields (match_movie_by_title_year l1 t y) =
      Option.map mfields (match_movie_by_title_year l2 t y) := by
  rw [match_movie_by_title_year, match_movie_by_title_year]
  by_cases ht : (t = [] || y == 0) = true
  · rw [if_pos ht, if_pos ht]
  · rw [if_neg ht, if_neg ht]
    dsimp only
    have hex : (l1.filter (fun m =>
        (m.title.map (List.map pyLower) == some (t.map pyLower)) && (m.year == some y))).map mfields =
      (l2.filter (fun m =>
        (m.title.map (List.map pyLower) == some (t.map pyLower)) && (m.year == some y))).map mfields :=
      filter_congr_mfields _
        (fun m1 m2 he => by simp only [title_proj_of_mfields he, year_proj_of_mfields he]) h
    have hlen : (l1.filter (fun m =>
        (m.title.map (List.map pyLower) == some (t.map pyLower)) && (m.year == some y))).length =
      (l2.filter (fun m =>
        (m.title.map (List.map pyLower) == some (t.map pyLower)) && (m.year == some y))).length := by
      have := congrArg List.length hex
      simpa using this
    rw [hlen]
    split
    · have hh := congrArg List.head? hex
      rw [List.head?_map, List.head?_map] at hh
      exact hh
    · have hfy : (l1.filter (fun m => m.year == some y)).map mfields =
          (l2.filter (fun m => m.year == some y)).map mfields :=
        filter_congr_mfields _ (fun m1 m2 he => by simp only [year_proj_of_mfields he]) h
      exact find?_congr_mfields _
        (fun m1 m2 he => by simp only [title_proj_of_mfields he]) hfy

theorem match_list_entry_congr {l1 l2 : List Movie}
    (h : l1.map mfields = l2.map mfields) (e : TLEntry) :
    Option.map mfields (match_list_entry l1 e) =
      Option.map mfields (match_list_entry l2 e) := by
  rw [match_list_entry, match_list_entry]
  have hfall : Option.map mfields
      (match e.name, e.year with
       | some n, some y => if n ≠ [] && y != 0 then match_movie_by_title_year l1 n y else none
       | _, _ => none) =
    Option.map mfields
      (match e.name, e.year with
       | some n, some y => if n ≠ [] && y != 0 then match_movie_by_title_year l2 n y else none
       | _, _ => none) := by
    cases e.name with
    | none => cases e.year <;> rfl
    | some n =>
      cases e.year with
      | none => rfl
      | some y =>
        dsimp only
        split
        · exact match_movie_by_title_year_congr h n y
        · rfl
  cases e.letterboxd_uri with
  | none => exact hfall
  | some u =>
    dsimp only
    by_cases hu : u = []
    · rw [if_neg (by simp [hu]), if_neg (by simp [hu])]
      exact hfall
    · rw [if_pos hu, if_pos hu]
      have h1 := match_movie_by_uri_congr h u
      rcases opt_map_mfields_cases h1 with ⟨ha, hb⟩ | ⟨m1, m2, ha, hb, hab⟩
      · rw [ha, hb]; exact hfall
      · rw [ha, hb]; simp [hab]

theorem match_list_entry_id_congr {l1 l2 : List Movie}
    (h : l1.map mfields = l2.map mfields) (e : TLEntry) (i : Nat) :
    (∃ mm, match_list_entry l1 e = some mm ∧ mm.id = i) ↔
    (∃ mm, match_list_entry l2 e = some mm ∧ mm.id = i) := by
  rcases opt_map_mfields_cases (match_list_entry_congr h e) with ⟨ha, hb⟩ | ⟨m1, m2, ha, hb, hab⟩
  · rw [ha, hb]
  · rw [ha, hb]
    simp only [Option.some.injEq]
    constructor
    · rintro ⟨mm, rfl, hid⟩
      exact ⟨m2, rfl, (id_proj_of_mfields hab) ▸ hid⟩
    · rintro ⟨mm, rfl, hid⟩
      exact ⟨m1, rfl, (id_proj_of_mfields hab).symm ▸ hid⟩

theorem addFlag_contains (col : List Char) (fl : List (List Char)) (c : List Char) :
    (addFlag col fl).contains c = (c == col || fl.contains c) := by
  rw [addFlag]
  split
  · rename_i hin
    cases hc : (c == col) with
    | true =>
      rw [beq_iff_eq] at hc
      subst hc
      rw [Bool.true_or, hin]
    | false => rw [Bool.false_or]
  · rw [List.contains_cons]

theorem setFlagById_at (col : List Char) (mid : Nat) (db : List Movie) (k : Nat) (m : Movie)
    (hk : db[k]? = some m) :
    ∃ m', (setFlagById col mid db)[k]? = some m' ∧ mfields m' = mfields m ∧
      ∀ c, ((m'.flags.contains c = true) ↔
        (m.flags.contains c = true ∨ (c = col ∧ m.id = mid))) := by
  rw [setFlagById, List.getElem?_map, hk, Option.map_some']
  by_cases hid : m.id = mid
  · rw [if_pos hid]
    refine ⟨_, rfl, rfl, fun c => ?_⟩
    dsimp only
    have heq : ((if m.flags.contains col = true then m.flags else col :: m.flags).contains c)
        = (c == col || m.flags.contains c) := addFlag_contains col m.flags c
    rw [heq]
    simp [hid, beq_iff_eq, or_comm]
  · rw [if_neg hid]
    refine ⟨_, rfl, rfl, fun c => ?_⟩
    simp [hid]

theorem process_tracked_list_at (col : List Char) :
    ∀ (entries : List TLEntry) (db : List Movie) (k : Nat) (m : Movie), db[k]? = some m →
      ∃ m', (process_tracked_list col db entries).1[k]? = some m' ∧ mfields m' = mfields m ∧
        ∀ c, ((m'.flags.contains c = true) ↔
          (m.flags.contains c = true ∨ (c = col ∧ ∃ e ∈ entries, ∃ mm,
            match_list_entry db e = some mm ∧ mm.id = m.id))) := by
  intro entries
  induction entries with
  | nil =>
    intro db k m hk
    exact ⟨m, hk, rfl, fun c => by simp⟩
  | cons e rest ih =>
    intro db k m hk
    rw [process_tracked_list]
    cases hml : match_list_entry db e with
    | none =>
      obtain ⟨m', h1, h2, h3⟩ := ih db k m hk
      refine ⟨m', h1, h2, fun c => ?_⟩
      rw [h3 c]
      constructor
      · rintro (h | ⟨hc, e', he', mm, hmm, hid⟩)
        · exact Or.inl h
        · exact Or.inr ⟨hc, e', List.mem_cons_of_mem e he', mm, hmm, hid⟩
      · rintro (h | ⟨hc, e', he', mm, hmm, hid⟩)
        · exact Or.inl h
        · rcases List.mem_cons.mp he' with rfl | he''
          · rw [hml] at hmm; cases hmm
          · exact Or.inr ⟨hc, e', he'', mm, hmm, hid⟩
    | some mm0 =>
      dsimp only
      obtain ⟨m1, hk1, hf1, hfl1⟩ := setFlagById_at col mm0.id db k m hk
      obtain ⟨m', h1, h2, h3⟩ := ih (setFlagById col mm0.id db) k m1 hk1
      have hmaps : (setFlagById col mm0.id db).map mfields = db.map mfields :=
        setFlagById_mfields col mm0.id db
      have hidm : m1.id = m.id := id_proj_of_mfields hf1
      refine ⟨m', h1, h2.trans hf1, fun c => ?_⟩
      rw [h3 c]
      constructor
      · rintro (h | ⟨hc, e', he', mm, hmm, hid⟩)
        · rw [hfl1 c] at h
          rcases h with h | ⟨hc, hidm0⟩
          · exact Or.inl h
          · exact Or.inr ⟨hc, e, List.mem_cons_self e rest, mm0, hml, hidm0.symm⟩
        · obtain ⟨mm', hmm', hid'⟩ := (match_list_entry_id_congr hmaps e' m.id).mp
            ⟨mm, hmm, by rw [hid, hidm]⟩
          exact Or.inr ⟨hc, e', List.mem_cons_of_mem e he', mm', hmm', hid'⟩
      · rintro (h | ⟨hc, e', he', mm, hmm, hid⟩)
        · exact Or.inl ((hfl1 c).mpr (Or.inl h))
        · rcases List.mem_cons.mp he' with rfl | he''
          · rw [hml, Option.some.injEq] at hmm
            subst hmm
            exact Or.inl ((hfl1 c).mpr (Or.inr ⟨hc, hid.symm⟩))
          · obtain ⟨mm', hmm', hid'⟩ := (match_list_entry_id_congr hmaps e' m.id).mpr
              ⟨mm, hmm, hid⟩
            exact Or.inr ⟨hc, e', he'', mm', hmm', by rw [hid', hidm]⟩

theorem runTrackedAux_flags (total : Nat) :
    ∀ (files : List TFile) (db : List Movie) (i : Nat)
      (results : List (List Char × TLResult)) (k : Nat) (m : Movie),
      db[k]? = some m →
      ∃ m', (runTrackedAux total db files i results).1[k]? = some m' ∧
        mfields m' = mfields m ∧
        ∀ c, ((m'.flags.contains c = true) ↔ (m.flags.contains c = true ∨
          ∃ f ∈ files, filename_to_column_name f.filename = c ∧
            ∃ entries, f.parsed = some entries ∧ ∃ e ∈ entries, ∃ mm,
              match_list_entry db e = some mm ∧ mm.id = m.id)) := by
  intro files
  induction files with
  | nil =>
    intro db i results k m hk
    exact ⟨m, hk, rfl, fun c => by simp⟩
  | cons f rest ih =>
    intro db i results k m hk
    rw [runTrackedAux]
    cases hp : f.parsed with
    | none =>
      dsimp only
      obtain ⟨m', h1, h2, h3⟩ := ih db (i + 1) _ k m hk
      refine ⟨m', h1, h2, fun c => ?_⟩
      rw [h3 c]
      constructor
      · rintro (h | ⟨f', hf', hcol, entries, hpe, rest'⟩)
        · exact Or.inl h
        · exact Or.inr ⟨f', List.mem_cons_of_mem f hf', hcol, entries, hpe, rest'⟩
      · rintro (h | ⟨f', hf', hcol, entries, hpe, rest'⟩)
        · exact Or.inl h
        · rcases List.mem_cons.mp hf' with rfl | hf''
          · rw [hp] at hpe; cases hpe
          · exact Or.inr ⟨f', hf'', hcol, entries, hpe, rest'⟩
    | some entries =>
      dsimp only
      obtain ⟨m1, hk1, hf1, hfl1⟩ :=
        process_tracked_list_at (filename_to_column_name f.filename) entries db k m hk
      obtain ⟨m', h1, h2, h3⟩ :=
        ih (process_tracked_list (filename_to_column_name f.filename) db entries).1
          (i + 1) _ k m1 hk1
      have hmaps : ((process_tracked_list (filename_to_column_name f.filename)
          db entries).1).map mfields = db.map mfields :=
        process_tracked_list_mfields (filename_to_column_name f.filename) entries db
      have hidm : m1.id = m.id := id_proj_of_mfields hf1
      refine ⟨m', h1, h2.trans hf1, fun c => ?_⟩
      rw [h3 c]
      constructor
      · rintro (h | ⟨f', hf', hcol, entries', hpe, e', he', mm, hmm, hid⟩)
        · rw [hfl1 c] at h
          rcases h with h | ⟨hc, e', he', mm, hmm, hid⟩
          · exact Or.inl h
          · exact Or.inr ⟨f, List.mem_cons_self f rest, hc.symm, entries, hp,
              e', he', mm, hmm, hid⟩
        · obtain ⟨mm', hmm', hid'⟩ := (match_list_entry_id_congr hmaps e' m.id).mp
            ⟨mm, hmm, by rw [hid, hidm]⟩
          exact Or.inr ⟨f', List.mem_cons_of_mem f hf', hcol, entries', hpe,
            e', he', mm', hmm', hid'⟩
      · rintro (h | ⟨f', hf', hcol, entries', hpe, e', he', mm, hmm, hid⟩)
        · exact Or.inl ((hfl1 c).mpr (Or.inl h))
        · rcases List.mem_cons.mp hf' with rfl | hf''
          · rw [hp, Option.some.injEq] at hpe
            subst hpe
            exact Or.inl ((hfl1 c).mpr (Or.inr ⟨hcol.symm, e', he', mm, hmm, hid⟩))
          · obtain ⟨mm', hmm', hid'⟩ := (match_list_entry_id_congr hmaps e' m.id).mpr
              ⟨mm, hmm, hid⟩
            exact Or.inr ⟨f', hf'', hcol, entries', hpe,
              e', he', mm', hmm', by rw [hid', hidm]⟩

theorem contains_filter_not_mem (fl : List (List Char)) (cols : List (List Char))
    (c : List Char) :
    ((fl.filter (fun x => !cols.contains x)).contains c)
      = (fl.contains c && !cols.contains c) := by
  induction fl with
  | nil => rfl
  | cons a t ih =>
    rw [List.filter_cons]
    by_cases ha : (!cols.contains a) = true
    · rw [if_pos ha, List.contains_cons, List.contains_cons, ih]
      cases hca : (c == a) with
      | true =>
        have hc : c = a := beq_iff_eq.mp hca
        subst hc
        rw [Bool.true_or, Bool.true_or, Bool.true_and, ha]
      | false => rw [Bool.false_or, Bool.false_or]
    · rw [if_neg ha, ih, List.contains_cons]
      cases hca : (c == a) with
      | true =>
        have hc : c = a := beq_iff_eq.mp hca
        subst hc
        have hcc : (!cols.contains c) = false := Bool.eq_false_iff.mpr ha
        rw [hcc, Bool.and_false, Bool.and_false]
      | false => rw [Bool.false_or]

theorem resetColumns_at (db : List Movie) (cols : List (List Char)) (k : Nat) (m : Movie)
    (hk : db[k]? = some m) :
    ∃ m', (resetColumns db cols)[k]? = some m' ∧ mfields m' = mfields m ∧
      ∀ c, (m'.flags.contains c) = (m.flags.contains c && !cols.contains c) := by
  rw [resetColumns, List.getElem?_map, hk, Option.map_some']
  exact ⟨_, rfl, rfl, fun c => contains_filter_not_mem m.flags cols c⟩

theorem eq_of_mem_pairwise_map {α β : Type} {g : α → β} :
    ∀ {l : List α}, (l.map g).Pairwise (fun x y => x ≠ y) →
      ∀ {a b : α}, a ∈ l → b ∈ l → g a = g b → a = b := by
  intro l
  induction l with
  | nil => intro _ a b ha; cases ha
  | cons x t ih =>
    intro hpw a b ha hb hg
    rw [List.map_cons, List.pairwise_cons] at hpw
    rcases List.mem_cons.mp ha with rfl | ha'
    · rcases List.mem_cons.mp hb with rfl | hb'
      · rfl
      · exact absurd hg (hpw.1 (g b) (List.mem_map_of_mem g hb'))
    · rcases List.mem_cons.mp hb with rfl | hb'
      · exact absurd hg.symm (hpw.1 (g a) (List.mem_map_of_mem g ha'))
      · exact ih hpw.2 ha' hb' hg

theorem contains_columns_iff (dir : List TFile) (c : List Char) :
    ((dir.map (fun f => filename_to_column_name f.filename)).contains c = true) ↔
      ∃ f ∈ dir, filename_to_column_name f.filename = c := by
  rw [List.contains_eq_any_beq, List.any_eq_true]
  constructor
  · rintro ⟨x, hx, hbeq⟩
    obtain ⟨f, hf, hfx⟩ := List.mem_map.mp hx
    exact ⟨f, hf, by rw [hfx, ← beq_iff_eq.mp hbeq]⟩
  · rintro ⟨f, hf, hfc⟩
    exact ⟨c, List.mem_map.mpr ⟨f, hf, hfc⟩, beq_iff_eq.mpr rfl⟩

set_option maxHeartbeats 1600000 in
/-- C1 (counterexample to the claim as stated): with the two current CSVs
`a-b.csv` (one entry matching the stored movie) and `a_b.csv` (no entries),
both of which map to the tracked-list column `is_a_b`, the movie's column
for the list `a_b` is 1 after the run although no entry of `a_b.csv`
matched the movie. -/
theorem c1_counterexample :
    ((process_all_tracked_lists [cexMovieC1] [cexFileC1a, cexFileC1b]).1.map
        (fun m => m.flags.contains (filename_to_column_name cexFileC1b.filename)))
      = [true] ∧ cexFileC1b.parsed = some [] := by
  constructor
  · decide
  · rfl

set_option maxHeartbeats 1600000 in
/-- C1 (amended): when the column names derived from the current CSV file
names are pairwise distinct, `process_all_tracked_lists` is a full
recomputation: every stored row keeps its id, title, year and URI, the
column of each current list ends up 1 exactly when some entry of that
list's CSV matches the movie (by URI or by normalized title plus year)
against the stored table, and every other tracked-list column is left
unchanged (an errored list contributes no matches, so its column stays at
the reset value 0). -/
theorem c1_tracked_recompute (db : List Movie) (dir : List TFile)
    (hpw : (dir.map (fun f => filename_to_column_name f.filename)).Pairwise
      (fun x y => x ≠ y))
    (k : Nat) (m : Movie) (hk : db[k]? = some m) :
    ∃ m', (process_all_tracked_lists db dir).1[k]? = some m' ∧
      mfields m' = mfields m ∧
      (∀ f ∈ dir, ((m'.flags.contains (filename_to_column_name f.filename) = true) ↔
        ∃ entries, f.parsed = some entries ∧ ∃ e ∈ entries, ∃ mm,
          match_list_entry db e = some mm ∧ mm.id = m.id)) ∧
      (∀ c, (¬ ∃ f ∈ dir, filename_to_column_name f.filename = c) →
        ((m'.flags.contains c = true) ↔ (m.flags.contains c = true))) := by
  obtain ⟨m0, hk0, hf0, hfl0⟩ :=
    resetColumns_at db (dir.map (fun f => filename_to_column_name f.filename)) k m hk
  simp only [process_all_tracked_lists]
  generalize hgen :
    resetColumns db (dir.map (fun f => filename_to_column_name f.filename)) = db2 at hk0 ⊢
  obtain ⟨m', h1, h2, h3⟩ := runTrackedAux_flags dir.length dir db2 0 [] k m0 hk0
  have hmapsR : db2.map mfields = db.map mfields := by
    rw [← hgen]
    exact resetColumns_mfields db (dir.map (fun f => filename_to_column_name f.filename))
  have hidm0 : m0.id = m.id := id_proj_of_mfields hf0
  refine ⟨m', h1, h2.trans hf0, ?_, ?_⟩
  · intro f hf
    have hcin : ((dir.map (fun f => filename_to_column_name f.filename)).contains
        (filename_to_column_name f.filename)) = true :=
      (contains_columns_iff dir (filename_to_column_name f.filename)).mpr ⟨f, hf, rfl⟩
    have hm0 : m0.flags.contains (filename_to_column_name f.filename) = false := by
      rw [hfl0, hcin]
      exact Bool.and_false _
    rw [h3]
    constructor
    · rintro (h | ⟨f', hf', hcol, entries, hpe, e, he, mm, hmm, hid⟩)
      · rw [hm0] at h; cases h
      · have hff : f' = f := eq_of_mem_pairwise_map hpw hf' hf hcol
        subst hff
        obtain ⟨mm', hmm', hid'⟩ :=
          (match_list_entry_id_congr hmapsR e m.id).mp ⟨mm, hmm, hid.trans hidm0⟩
        exact ⟨entries, hpe, e, he, mm', hmm', hid'⟩
    · rintro ⟨entries, hpe, e, he, mm, hmm, hid⟩
      obtain ⟨mm', hmm', hid'⟩ :=
        (match_list_entry_id_congr hmapsR e m.id).mpr ⟨mm, hmm, hid⟩
      exact Or.inr ⟨f, hf, rfl, entries, hpe, e, he, mm', hmm', hid'.trans hidm0.symm⟩
  · intro c hc
    have hcin : ((dir.map (fun f => filename_to_column_name f.filename)).contains c)
        = false := by
      cases hv : ((dir.map (fun f => filename_to_column_name f.filename)).contains c) with
      | false => rfl
      | true => exact absurd ((contains_columns_iff dir c).mp hv) hc
    have hm0 : m0.flags.contains c = m.flags.contains c := by
      rw [hfl0, hcin]
      cases m.flags.contains c <;> rfl
    rw [h3, hm0]
    constructor
    · rintro (h | ⟨f', hf', hcol, _⟩)
      · exact h
      · exact absurd ⟨f', hf', hcol⟩ hc
    · exact Or.inl

/-- C1 witness: the amended recomputation theorem applied to one stored
movie and the single tracked list `a-b.csv`. -/
theorem c1_witness :
    ∃ m', (process_all_tracked_lists [cexMovieC1] [cexFileC1a]).1[0]? = some m' ∧
      mfields m' = mfields cexMovieC1 ∧
      (∀ f ∈ [cexFileC1a],
        ((m'.flags.contains (filename_to_column_name f.filename) = true) ↔
          ∃ entries, f.parsed = some entries ∧ ∃ e ∈ entries, ∃ mm,
            match_list_entry [cexMovieC1] e = some mm ∧ mm.id = cexMovieC1.id)) ∧
      (∀ c, (¬ ∃ f ∈ [cexFileC1a], filename_to_column_name f.filename = c) →
        ((m'.flags.contains c = true) ↔ (cexMovieC1.flags.contains c = true))) :=
  c1_tracked_recompute [cexMovieC1] [cexFileC1a] (by simp) 0 cexMovieC1 rfl

theorem char_le_iff {a b : Char} : a ≤ b ↔ a.val.toBitVec.toNat ≤ b.val.toBitVec.toNat := by
  rw [Char.le_def, UInt32.le_def, BitVec.le_def]

theorem upper_false_of_keep (c : Char) (h : keepChar c = true) :
    (('A' ≤ c && c ≤ 'Z') : Bool) = false := by
  rw [keepChar, Bool.or_eq_true, Bool.or_eq_true] at h
  rcases h with (h | h) | h
  · rw [Bool.and_eq_true] at h
    have h1 : 'a' ≤ c := of_decide_eq_true h.1
    rw [Bool.and_eq_false_iff]
    right
    rw [decide_eq_false_iff_not]
    intro h2
    rw [char_le_iff] at h1 h2
    have e1 : ('a' : Char).val.toBitVec.toNat = 97 := rfl
    have e2 : ('Z' : Char).val.toBitVec.toNat = 90 := rfl
    rw [e1] at h1
    rw [e2] at h2
    omega
  · rw [Bool.and_eq_true] at h
    have h2 : c ≤ '9' := of_decide_eq_true h.2
    rw [Bool.and_eq_false_iff]
    left
    rw [decide_eq_false_iff_not]
    intro h1
    rw [char_le_iff] at h1 h2
    have e1 : ('A' : Char).val.toBitVec.toNat = 65 := rfl
    have e2 : ('9' : Char).val.toBitVec.toNat = 57 := rfl
    rw [e1] at h1
    rw [e2] at h2
    omega
  · rw [pyIsSpace] at h
    simp only [Bool.or_eq_true, beq_iff_eq] at h
    rcases h with ((((h | h) | h) | h) | h) | h <;> subst h <;> rfl

theorem pyLower_keep (c : Char) (h : keepChar c = true) : pyLower c = c := by
  rw [pyLower, upper_false_of_keep c h]
  rfl

theorem mem_rstrip {c : Char} : ∀ {u : List Char}, c ∈ rstrip u → c ∈ u := by
  intro u
  induction u with
  | nil => intro h; exact h
  | cons a rest ih =>
    intro h
    rw [rstrip] at h
    revert h
    cases hr : rstrip rest with
    | nil =>
      intro h
      dsimp only at h
      split at h
      · cases h
      · rcases List.mem_cons.mp h with rfl | h0
        · exact List.mem_cons_self c rest
        · cases h0
    | cons d r =>
      intro h
      dsimp only at h
      rcases List.mem_cons.mp h with rfl | h0
      · exact List.mem_cons_self c rest
      · exact List.mem_cons_of_mem a (ih (hr ▸ h0))

theorem mem_collapseWsAux {c : Char} :
    ∀ (u : List Char) (b : Bool), c ∈ collapseWsAux b u →
      c = ' ' ∨ (c ∈ u ∧ pyIsSpace c = false) := by
  intro u
  induction u with
  | nil => intro b h; rw [collapseWsAux] at h; cases h
  | cons a rest ih =>
    intro b h
    rw [collapseWsAux] at h
    split at h
    · split at h
      · rcases ih true h with h0 | ⟨hm, hs⟩
        · exact Or.inl h0
        · exact Or.inr ⟨List.mem_cons_of_mem a hm, hs⟩
      · rcases List.mem_cons.mp h with rfl | h0
        · exact Or.inl rfl
        · rcases ih true h0 with h1 | ⟨hm, hs⟩
          · exact Or.inl h1
          · exact Or.inr ⟨List.mem_cons_of_mem a hm, hs⟩
    · rename_i ha
      rcases List.mem_cons.mp h with rfl | h0
      · exact Or.inr ⟨List.mem_cons_self c rest, Bool.eq_false_iff.mpr ha⟩
      · rcases ih false h0 with h1 | ⟨hm, hs⟩
        · exact Or.inl h1
        · exact Or.inr ⟨List.mem_cons_of_mem a hm, hs⟩

theorem noDoubleSpace_tail {a : Char} {u : List Char}
    (h : noDoubleSpace (a :: u) = true) : noDoubleSpace u = true := by
  cases u with
  | nil => rfl
  | cons d r =>
    rw [noDoubleSpace, Bool.and_eq_true] at h
    exact h.2

theorem noDoubleSpace_lstrip : ∀ {u : List Char},
    noDoubleSpace u = true → noDoubleSpace (lstrip u) = true := by
  intro u
  induction u with
  | nil => intro h; exact h
  | cons a rest ih =>
    intro h
    rw [lstrip]
    by_cases ha : pyIsSpace a = true
    · rw [List.dropWhile_cons_of_pos ha]
      exact ih (noDoubleSpace_tail h)
    · rw [List.dropWhile_cons_of_neg ha]
      exact h

theorem head_rstrip : ∀ {u : List Char} {d : Char},
    (rstrip u).head? = some d → u.head? = some d := by
  intro u
  induction u with
  | nil => intro d h; cases h
  | cons a rest ih =>
    intro d h
    rw [rstrip] at h
    revert h
    cases hr : rstrip rest with
    | nil =>
      intro h
      dsimp only at h
      split at h
      · cases h
      · rw [List.head?_cons] at h ⊢
        exact h
    | cons e r =>
      intro h
      dsimp only at h
      rw [List.head?_cons] at h ⊢
      exact h

theorem getLast_rstrip : ∀ {u : List Char} {d : Char},
    (rstrip u).getLast? = some d → pyIsSpace d = false := by
  intro u
  induction u with
  | nil => intro d h; cases h
  | cons a rest ih =>
    intro d h
    rw [rstrip] at h
    revert h
    cases hr : rstrip rest with
    | nil =>
      intro h
      dsimp only at h
      split at h
      · cases h
      · rename_i ha
        rw [List.getLast?_singleton, Option.some.injEq] at h
        subst h
        exact Bool.eq_false_iff.mpr ha
    | cons e r =>
      intro h
      dsimp only at h
      rw [List.getLast?_cons_cons] at h
      exact ih (hr ▸ h)

theorem noDoubleSpace_rstrip : ∀ {u : List Char},
    noDoubleSpace u = true → noDoubleSpace (rstrip u) = true := by
  intro u
  induction u with
  | nil => intro h; exact h
  | cons a rest ih =>
    intro h
    rw [rstrip]
    cases hr : rstrip rest with
    | nil =>
      dsimp only
      split
      · rfl
      · rfl
    | cons e r =>
      dsimp only
      rw [noDoubleSpace, Bool.and_eq_true]
      constructor
      · have he : rest.head? = some e := head_rstrip (by rw [hr, List.head?_cons])
        cases rest with
        | nil => cases he
        | cons e0 r0 =>
          rw [List.head?_cons, Option.some.injEq] at he
          subst he
          rw [noDoubleSpace, Bool.and_eq_true] at h
          exact h.1
      · rw [← hr]
        exact ih (noDoubleSpace_tail h)

theorem collapseWsAux_true_head : ∀ (u : List Char) {d : Char} {r : List Char},
    collapseWsAux true u = d :: r → pyIsSpace d = false := by
  intro u
  induction u with
  | nil => intro d r h; cases h
  | cons a rest ih =>
    intro d r h
    rw [collapseWsAux] at h
    split at h
    · rw [if_pos rfl] at h
      exact ih h
    · rename_i ha
      rw [List.cons.injEq] at h
      rw [← h.1]
      exact Bool.eq_false_iff.mpr ha

theorem noDoubleSpace_collapseWsAux : ∀ (u : List Char) (b : Bool),
    noDoubleSpace (collapseWsAux b u) = true := by
  intro u
  induction u with
  | nil => intro b; rfl
  | cons a rest ih =>
    intro b
    rw [collapseWsAux]
    split
    · cases b with
      | true =>
        rw [if_pos rfl]
        exact ih true
      | false =>
        rw [if_neg (by simp)]
        cases hc : collapseWsAux true rest with
        | nil => rfl
        | cons d r =>
          rw [noDoubleSpace, Bool.and_eq_true]
          constructor
          · have hd : pyIsSpace d = false := collapseWsAux_true_head rest hc
            have hd2 : (d == ' ') = false := by
              cases hdd : d == ' ' with
              | false => rfl
              | true =>
                rw [beq_iff_eq] at hdd
                subst hdd
                exact absurd hd (by decide)
            rw [hd2, Bool.and_false, Bool.not_false]
          · rw [← hc]
            exact ih true
    · rename_i ha
      cases hc : collapseWsAux false rest with
      | nil => rfl
      | cons d r =>
        rw [noDoubleSpace, Bool.and_eq_true]
        constructor
        · have ha2 : (a == ' ') = false := by
            cases haa : a == ' ' with
            | false => rfl
            | true =>
              rw [beq_iff_eq] at haa
              subst haa
              exact absurd (by decide : pyIsSpace ' ' = true) ha
          rw [ha2, Bool.false_and, Bool.not_false]
        · rw [← hc]
          exact ih false

theorem collapseWsAux_fix : ∀ (t : List Char),
    (∀ c ∈ t, pyIsSpace c = false ∨ c = ' ') → noDoubleSpace t = true →
    collapseWsAux false t = t := by
  intro t
  induction t with
  | nil => intro _ _; rfl
  | cons a rest ih =>
    intro hws hnd
    rw [collapseWsAux]
    cases hsa : pyIsSpace a with
    | false =>
      rw [if_neg (by simp [hsa])]
      rw [ih (fun c hc => hws c (List.mem_cons_of_mem a hc)) (noDoubleSpace_tail hnd)]
    | true =>
      rw [if_pos rfl, if_neg (by simp)]
      have ha : a = ' ' := by
        rcases hws a (List.mem_cons_self a rest) with h | h
        · rw [hsa] at h; cases h
        · exact h
      subst ha
      cases rest with
      | nil => rfl
      | cons d r =>
        have hd : pyIsSpace d = false := by
          rcases hws d (List.mem_cons_of_mem _ (List.mem_cons_self d r)) with h | h
          · exact h
          · subst h
            rw [noDoubleSpace, Bool.and_eq_true] at hnd
            exact absurd hnd.1 (by decide)
        have hih : collapseWsAux false (d :: r) = d :: r :=
          ih (fun c hc => hws c (List.mem_cons_of_mem _ hc)) (noDoubleSpace_tail hnd)
        rw [collapseWsAux, if_neg (by simp [hd])] at hih
        rw [collapseWsAux, if_neg (by simp [hd]), hih]

theorem lstrip_fix {t : List Char}
    (h : ∀ d, t.head? = some d → pyIsSpace d = false) : lstrip t = t := by
  cases t with
  | nil => rfl
  | cons a rest =>
    rw [lstrip, List.dropWhile_cons_of_neg]
    rw [h a (by rw [List.head?_cons])]
    exact Bool.false_ne_true

theorem rstrip_fix : ∀ {t : List Char},
    (∀ d, t.getLast? = some d → pyIsSpace d = false) → rstrip t = t := by
  intro t
  induction t with
  | nil => intro _; rfl
  | cons a rest ih =>
    intro h
    rw [rstrip]
    cases rest with
    | nil =>
      have ha : pyIsSpace a = false := h a (by rw [List.getLast?_singleton])
      simp only [rstrip]
      rw [if_neg (by simp [ha])]
    | cons e r =>
      have hih : rstrip (e :: r) = e :: r :=
        ih (fun d hd => h d (by rw [List.getLast?_cons_cons]; exact hd))
      rw [hih]

theorem normalize_title_eq (s : List Char) (hs : ¬ s = []) :
    normalize_title s = pyStrip (collapseWs ((stripArticle ('a' :: 'n' :: ' ' :: [])
      (stripArticle ('a' :: ' ' :: []) (stripArticle ('t' :: 'h' :: 'e' :: ' ' :: [])
        (pyStrip (s.map pyLower))))).filter keepChar)) := by
  rw [normalize_title, if_neg hs]

theorem mem_lstrip {c : Char} : ∀ {u : List Char}, c ∈ lstrip u → c ∈ u := by
  intro u
  induction u with
  | nil => intro h; exact h
  | cons a rest ih =>
    intro h
    rw [lstrip] at h
    by_cases ha : pyIsSpace a = true
    · rw [List.dropWhile_cons_of_pos ha] at h
      exact List.mem_cons_of_mem a (ih h)
    · rw [List.dropWhile_cons_of_neg ha] at h
      exact h

theorem strip_collapse_props (v : List Char) :
    (∀ c ∈ pyStrip (collapseWs v), c = ' ' ∨ c ∈ v) ∧
    (∀ c ∈ pyStrip (collapseWs v), pyIsSpace c = false ∨ c = ' ') ∧
    noDoubleSpace (pyStrip (collapseWs v)) = true ∧
    (∀ d, (pyStrip (collapseWs v)).head? = some d → pyIsSpace d = false) ∧
    (∀ d, (pyStrip (collapseWs v)).getLast? = some d → pyIsSpace d = false) := by
  refine ⟨?_, ?_, ?_, ?_, ?_⟩
  · intro c hc
    rcases mem_collapseWsAux v false (mem_lstrip (mem_rstrip hc)) with h | ⟨hm, _⟩
    · exact Or.inl h
    · exact Or.inr hm
  · intro c hc
    rcases mem_collapseWsAux v false (mem_lstrip (mem_rstrip hc)) with h | ⟨_, hs⟩
    · exact Or.inr h
    · exact Or.inl hs
  · exact noDoubleSpace_rstrip (noDoubleSpace_lstrip (noDoubleSpace_collapseWsAux v false))
  · intro d hd
    exact head_lstrip (collapseWs v) d (head_rstrip hd)
  · intro d hd
    exact getLast_rstrip hd

theorem normalize_title_clean (s : List Char) :
    (∀ c ∈ normalize_title s, keepChar c = true) ∧
    (∀ c ∈ normalize_title s, pyIsSpace c = false ∨ c = ' ') ∧
    noDoubleSpace (normalize_title s) = true ∧
    (∀ d, (normalize_title s).head? = some d → pyIsSpace d = false) ∧
    (∀ d, (normalize_title s).getLast? = some d → pyIsSpace d = false) := by
  by_cases hs : s = []
  · subst hs
    have e : normalize_title [] = [] := rfl
    rw [e]
    refine ⟨fun c hc => absurd hc (List.not_mem_nil c),
      fun c hc => absurd hc (List.not_mem_nil c), rfl, fun d hd => ?_, fun d hd => ?_⟩
    · cases hd
    · cases hd
  · rw [normalize_title_eq s hs]
    obtain ⟨p1, p2, p3, p4, p5⟩ := strip_collapse_props
      ((stripArticle ('a' :: 'n' :: ' ' :: []) (stripArticle ('a' :: ' ' :: [])
        (stripArticle ('t' :: 'h' :: 'e' :: ' ' :: [])
          (pyStrip (s.map pyLower))))).filter keepChar)
    refine ⟨?_, p2, p3, p4, p5⟩
    intro c hc
    rcases p1 c hc with h | h
    · subst h; decide
    · exact List.of_mem_filter h

theorem normalize_title_fix (t : List Char)
    (hkeep : ∀ c ∈ t, keepChar c = true)
    (hws : ∀ c ∈ t, pyIsSpace c = false ∨ c = ' ')
    (hnd : noDoubleSpace t = true)
    (hhead : ∀ d, t.head? = some d → pyIsSpace d = false)
    (hlast : ∀ d, t.getLast? = some d → pyIsSpace d = false)
    (hart : noLeadingArticle t = true) :
    normalize_title t = t := by
  by_cases ht : t = []
  · subst ht; rfl
  · rw [noLeadingArticle, Bool.and_eq_true, Bool.and_eq_true] at hart
    have hthe : (('t' :: 'h' :: 'e' :: ' ' :: []).isPrefixOf t) = false := by
      have e : "the ".data = ('t' :: 'h' :: 'e' :: ' ' :: []) := rfl
      rw [← e]
      have h0 := hart.1.1
      rw [Bool.not_eq_true'] at h0
      exact h0
    have ha : (('a' :: ' ' :: []).isPrefixOf t) = false := by
      have e : "a ".data = ('a' :: ' ' :: []) := rfl
      rw [← e]
      have h0 := hart.1.2
      rw [Bool.not_eq_true'] at h0
      exact h0
    have han : (('a' :: 'n' :: ' ' :: []).isPrefixOf t) = false := by
      have e : "an ".data = ('a' :: 'n' :: ' ' :: []) := rfl
      rw [← e]
      have h0 := hart.2
      rw [Bool.not_eq_true'] at h0
      exact h0
    have h1 : t.map pyLower = t :=
      (List.map_congr_left (fun c hc => pyLower_keep c (hkeep c hc))).trans (List.map_id t)
    have h6 : pyStrip t = t := by
      rw [pyStrip, lstrip_fix hhead]
      exact rstrip_fix hlast
    have h3 : stripArticle ('t' :: 'h' :: 'e' :: ' ' :: []) t = t := by
      rw [stripArticle, if_neg (by simp [hthe])]
    have h4 : stripArticle ('a' :: ' ' :: []) t = t := by
      rw [stripArticle, if_neg (by simp [ha])]
    have h5 : stripArticle ('a' :: 'n' :: ' ' :: []) t = t := by
      rw [stripArticle, if_neg (by simp [han])]
    have h7 : t.filter keepChar = t := List.filter_eq_self.mpr hkeep
    have h8 : collapseWs t = t := by
      rw [collapseWs]
      exact collapseWsAux_fix t hws hnd
    rw [normalize_title_eq t ht, h1, h6, h3, h4, h5, h7, h8, h6]

/-- C9 (counterexample to the claim as stated): `normalize_title` is not
idempotent.  The article loop removes at most one each of `"the "`, `"a "`,
`"an "` in that fixed order, so `normalize_title "a the x" = "the x"`, and
a second application strips the now-leading `"the "`. -/
theorem c9_counterexample :
    ¬ normalize_title (normalize_title ("a the x".data)) =
      normalize_title ("a the x".data) := by decide

/-- C9 (amended): `normalize_title` is idempotent on every input whose
normal form does not itself start with a leading article; equivalently,
applying it twice equals applying it once whenever the first application's
output has no leading `"the "`, `"a "` or `"an "`. -/
theorem c9_normalize_title_idempotent (s : List Char)
    (h : noLeadingArticle (normalize_title s) = true) :
    normalize_title (normalize_title s) = normalize_title s := by
  obtain ⟨hkeep, hws, hnd, hhead, hlast⟩ := normalize_title_clean s
  exact normalize_title_fix (normalize_title s) hkeep hws hnd hhead hlast h

/-- C9 witness: idempotence at the concrete title `"The Matrix"`. -/
theorem c9_witness :
    noLeadingArticle (normalize_title ("The Matrix".data)) = true ∧
      normalize_title (normalize_title ("The Matrix".data)) =
        normalize_title ("The Matrix".data) :=
  ⟨by decide, c9_normalize_title_idempotent ("The Matrix".data) (by decide)⟩

end Watchlist
